import Mathlib

/-!
# tkpath: the path canvas item (`generic/tkCanvPath.c`)

A shallow embedding of the geometry code of the path item: the cached
bounding boxes, the miter bbox, the point-to-segment distance, the segment
budget and the item procedures that keep them up to date; and of three
procedures of the
cairo back end (`unix/tkUnixCairoPath.c`): the quadratic Bezier curve and the
set-up and erasure of a memory surface.

Conventions of the embedding.

* A C `double` is an exact number: a rational (`ℚ`) in the bounding box
  code, which only adds, multiplies and compares, and a real (`ℝ`) in
  `TkLineToPoint2`, which takes square roots; `TkPathQuadBezier` is written
  for any field.  NaN and infinities are not modelled.
* A C `int` is an `Int`; the cast `(int) d` is truncation toward zero
  (`cInt`).  In C the cast is only defined when the truncated value fits in
  an `int`.
* Procedures that update a `PathItem` through a pointer take the item and
  return the updated item.
* Code of the repository that is not part of the translated sources (the
  parser, the atom utilities, the arc conversion, ...) is collected in the
  record `PathEnv` and passed explicitly, as is the global `gUseAntiAlias`.
-/

namespace TkPath

/-! ## Data model -/

/-- Rect of the header `PathRect`: an axis-aligned box. -/
structure PathRect where
  x1 : ℚ
  y1 : ℚ
  x2 : ℚ
  y2 : ℚ
  deriving DecidableEq

/-- Affine matrix `TMatrix`, with the fields the sources read. -/
structure TMatrix where
  a : ℚ
  b : ℚ
  c : ℚ
  d : ℚ
  tx : ℚ
  ty : ℚ
  deriving DecidableEq

/-- Path atoms, one constructor per `PATH_ATOM_*` tag, with the fields the
sources read from `MoveToAtom`, `LineToAtom`, `ArcAtom`, `QuadBezierAtom`,
`CurveToAtom` and `CloseAtom`. -/
inductive PathAtom where
  | M (x y : ℚ)
  | L (x y : ℚ)
  | A (radX radY angle : ℚ) (largeArcFlag sweepFlag : Int) (x y : ℚ)
  | Q (ctrlX ctrlY anchorX anchorY : ℚ)
  | C (ctrlX1 ctrlY1 ctrlX2 ctrlY2 anchorX anchorY : ℚ)
  | Z (x y : ℚ)
  deriving DecidableEq

/-- Item states of Tk (`Tk_State`). -/
inductive Tk_State where
  | TK_STATE_NULL
  | TK_STATE_ACTIVE
  | TK_STATE_DISABLED
  | TK_STATE_NORMAL
  | TK_STATE_HIDDEN
  deriving DecidableEq

/-- The part of the canvas record the item code reads. -/
structure TkCanvas where
  canvas_state : Tk_State

/-- The part of the generic item header (`Tk_Item`) the item code uses: the
integer bounding box and the state. -/
structure Tk_Item where
  x1 : Int
  y1 : Int
  x2 : Int
  y2 : Int
  state : Tk_State
  deriving DecidableEq

/-- A Tcl object, represented by its string value. -/
abbrev Tcl_Obj := String

/-- The fields of `Tk_PathStyle` read or written in `tkCanvPath.c`.  A colour
pointer is `none` for `NULL`. -/
structure Tk_PathStyle where
  strokeColor : Option String
  strokeWidth : ℚ
  strokeOpacity : ℚ
  fillOpacity : ℚ
  matrixPtr : Option TMatrix
  deriving DecidableEq

/-- The record of a path item (`struct PathItem`), without the canvas
back pointer and the outline. -/
structure PathItem where
  header : Tk_Item
  style : Tk_PathStyle
  styleName : Option String
  pathObjPtr : Option Tcl_Obj
  pathLen : Int
  normPathObjPtr : Option Tcl_Obj
  atomPtr : List PathAtom
  bareBbox : PathRect
  totalBbox : PathRect
  maxNumSegments : Int
  flags : Nat
  deriving DecidableEq

/-- Result codes of `EndpointToCentralArcParameters`. -/
inductive ArcResult where
  | kPathArcOK
  | kPathArcLine
  | kPathArcSkip
  deriving DecidableEq

/-- Output parameters of `EndpointToCentralArcParameters`. -/
structure ArcCentral where
  cx : ℚ
  cy : ℚ
  rx : ℚ
  ry : ℚ
  theta1 : ℚ
  dtheta : ℚ

/-- What `Tk_ConfigureWidget` can write through the option table of the item
(`configSpecs`): the style, the style name and the item state. -/
structure ConfigFields where
  style : Tk_PathStyle
  styleName : Option String
  state : Tk_State

/-- Procedures, constants and globals used by `tkCanvPath.c` and defined
elsewhere.  A procedure that writes through pointer arguments is a function
that returns what it writes: `TkPathParseToAtoms` gives the result code, the
atom list and the length, `TkPathNormalize` the new normalized path object,
`ScalePathAtoms` and `TranslatePathAtoms` the updated atoms,
`PathApplyTMatrix` the transformed point, `Tk_ConfigureWidget` the result
code and the option fields, `PathStyleMergeStyles` the merged style and
`Tk_CreatePathStyle` the initial style. -/
structure PathEnv where
  gUseAntiAlias : Int
  kPathNumSegmentsQuadBezier : Int
  kPathNumSegmentsCurveTo : Int
  DEGREES_TO_RADIANS : ℚ
  EndpointToCentralArcParameters :
    ℚ → ℚ → ℚ → ℚ → ℚ → ℚ → ℚ → Int → Int → ArcResult × ArcCentral
  GetGenericBarePathBbox : List PathAtom → PathRect
  PathApplyTMatrix : TMatrix → ℚ × ℚ → ℚ × ℚ
  TkPathParseToAtoms : Tcl_Obj → Int × List PathAtom × Int
  TkPathNormalize : List PathAtom → Tcl_Obj
  ScalePathAtoms : List PathAtom → ℚ → ℚ → ℚ → ℚ → List PathAtom
  TranslatePathAtoms : List PathAtom → ℚ → ℚ → List PathAtom
  Tk_ConfigureWidget : List Tcl_Obj → ConfigFields → Int × ConfigFields
  PathStyleMergeStyles : Tk_PathStyle → String → Tk_PathStyle
  Tk_CreatePathStyle : Tk_PathStyle

/-- Tcl result code `TCL_OK`. -/
def TCL_OK : Int := 0

/-- Tcl result code `TCL_ERROR`. -/
def TCL_ERROR : Int := 1

/-- Flag bit of `PathItem.flags`: the normalized path must be recomputed. -/
def kPathItemNeedNewNormalizedPath : Nat := 1 <<< 0

/-- The C cast `(int) d`: truncation toward zero. -/
def cInt (d : ℚ) : Int := if 0 ≤ d then ⌊d⌋ else ⌈d⌉

/-! ## Rect helpers -/

/-- Modelled from the spec: `NewEmptyPathRect` is not among the translated
sources.  The empty rect is the sentinel with large positive `x1`, `y1` and
large negative `x2`, `y2`; the value `1.0e36` is the one `GetMiterBbox` uses
for its empty bounds. -/
def NewEmptyPathRect : PathRect :=
  { x1 := 1.0e36, y1 := 1.0e36, x2 := -1.0e36, y2 := -1.0e36 }

/-- Modelled from the spec: `IncludePointInRect` is not among the translated
sources.  It unions the point into the box. -/
def IncludePointInRect (r : PathRect) (x y : ℚ) : PathRect :=
  { x1 := min r.x1 x, y1 := min r.y1 y, x2 := max r.x2 x, y2 := max r.y2 y }

/-- Modelled from the spec: `TranslatePathRect` is not among the translated
sources.  The box shifts by `(deltaX, deltaY)`. -/
def TranslatePathRect (r : PathRect) (deltaX deltaY : ℚ) : PathRect :=
  { x1 := r.x1 + deltaX, y1 := r.y1 + deltaY, x2 := r.x2 + deltaX, y2 := r.y2 + deltaY }

/-- `IsPathRectEmpty`. -/
def IsPathRectEmpty (r : PathRect) : Int :=
  if r.x2 > r.x1 ∧ r.y2 > r.y1 then 0 else 1

/-- `NormalizePathRect`. -/
def NormalizePathRect (r : PathRect) : PathRect :=
  let r1 := { r with x1 := min r.x1 r.x2, x2 := max r.x1 r.x2 }
  { r1 with y1 := min r1.y1 r1.y2, y2 := max r1.y1 r1.y2 }

/-! ## Bounding boxes of the item -/

/-- `SetTotalBboxFromBare`: the total bbox is the bare bbox grown by the
stroke width (at least 1.0) when there is a stroke colour, and by the fudge
factor. -/
def SetTotalBboxFromBare (env : PathEnv) (pathPtr : PathItem) : PathItem :=
  let style := pathPtr.style
  let fudge : ℚ := 1.0
  let rect := pathPtr.bareBbox
  let rect :=
    if style.strokeColor ≠ none then
      let width := style.strokeWidth
      let width := if width < 1.0 then 1.0 else width
      { x1 := rect.x1 - width, x2 := rect.x2 + width,
        y1 := rect.y1 - width, y2 := rect.y2 + width }
    else rect
  let fudge := if env.gUseAntiAlias ≠ 0 then 2 else fudge
  let rect : PathRect :=
    { x1 := rect.x1 - fudge, x2 := rect.x2 + fudge,
      y1 := rect.y1 - fudge, y2 := rect.y2 + fudge }
  { pathPtr with totalBbox := rect }

/-- `SetPathHeaderBbox`: sets the (transformed) bbox in the item header. -/
def SetPathHeaderBbox (env : PathEnv) (pathPtr : PathItem) : PathItem :=
  let style := pathPtr.style
  let rect := pathPtr.totalBbox
  let rect :=
    match style.matrixPtr with
    | some m =>
      let r := NewEmptyPathRect
      let p := env.PathApplyTMatrix m (rect.x1, rect.y1)
      let r := IncludePointInRect r p.1 p.2
      let p := env.PathApplyTMatrix m (rect.x2, rect.y1)
      let r := IncludePointInRect r p.1 p.2
      let p := env.PathApplyTMatrix m (rect.x1, rect.y2)
      let r := IncludePointInRect r p.1 p.2
      let p := env.PathApplyTMatrix m (rect.x2, rect.y2)
      let r := IncludePointInRect r p.1 p.2
      r
    | none => rect
  { pathPtr with
    header := { pathPtr.header with
      x1 := cInt rect.x1, x2 := cInt rect.x2, y1 := cInt rect.y1, y2 := cInt rect.y2 } }

/-- `ComputePathBbox`: recomputes the bare, total and header bbox of the
item from its atoms. -/
def ComputePathBbox (env : PathEnv) (canvas : TkCanvas) (pathPtr : PathItem) : PathItem :=
  let state := pathPtr.header.state
  let state := if state = Tk_State.TK_STATE_NULL then canvas.canvas_state else state
  if pathPtr.pathObjPtr = none ∨ pathPtr.pathLen < 4 ∨ state = Tk_State.TK_STATE_HIDDEN then
    { pathPtr with header := { pathPtr.header with x1 := -1, x2 := -1, y1 := -1, y2 := -1 } }
  else
    let rect := env.GetGenericBarePathBbox pathPtr.atomPtr
    let pathPtr := { pathPtr with bareBbox := rect }
    let pathPtr := SetTotalBboxFromBare env pathPtr
    SetPathHeaderBbox env pathPtr

/-! ## Segment budget -/

/-- `GetArcNumSegments`: the number of straight segments used for an arc
that starts at the current point. -/
def GetArcNumSegments (env : PathEnv) (currentX currentY : ℚ)
    (radX radY angle : ℚ) (largeArcFlag sweepFlag : Int) (x y : ℚ) : Int :=
  let res := env.EndpointToCentralArcParameters currentX currentY x y radX radY
    (env.DEGREES_TO_RADIANS * angle) largeArcFlag sweepFlag
  let result := res.1
  let rx := res.2.rx
  let ry := res.2.ry
  let dtheta := res.2.dtheta
  if result = ArcResult.kPathArcLine then 2
  else if result = ArcResult.kPathArcSkip then 0
  else
    let ntheta := cInt (dtheta / 5.0 + 0.5)
    let nlength := cInt (0.5 * (rx + ry) * dtheta / 50 + 0.5)
    max 4 (max ntheta nlength)

/-- Local variables of the loop of `GetSubpathMaxNumSegments`. -/
structure SegLoop where
  num : Int
  maxNumSegments : Int
  currentX : ℚ
  currentY : ℚ
  startX : ℚ
  startY : ℚ

/-- One pass through the body of the loop of `GetSubpathMaxNumSegments`. -/
def segLoopBody (env : PathEnv) (s : SegLoop) (atom : PathAtom) : SegLoop :=
  let s :=
    match atom with
    | PathAtom.M x y =>
      { s with num := 1, currentX := x, currentY := y, startX := x, startY := y }
    | PathAtom.L x y =>
      { s with num := s.num + 1, currentX := x, currentY := y }
    | PathAtom.A radX radY angle largeArcFlag sweepFlag x y =>
      { s with
        num := s.num + GetArcNumSegments env s.currentX s.currentY
          radX radY angle largeArcFlag sweepFlag x y,
        currentX := x, currentY := y }
    | PathAtom.Q _ _ anchorX anchorY =>
      { s with num := s.num + env.kPathNumSegmentsQuadBezier,
               currentX := anchorX, currentY := anchorY }
    | PathAtom.C _ _ _ _ anchorX anchorY =>
      { s with num := s.num + env.kPathNumSegmentsCurveTo,
               currentX := anchorX, currentY := anchorY }
    | PathAtom.Z _ _ =>
      { s with num := s.num + 1, currentX := s.startX, currentY := s.startY }
  if s.num > s.maxNumSegments then { s with maxNumSegments := s.num } else s

/-- `GetSubpathMaxNumSegments`: the loop over the atom list. -/
def GetSubpathMaxNumSegments (env : PathEnv) (atomPtr : List PathAtom) : Int :=
  (atomPtr.foldl (segLoopBody env)
    { num := 0, maxNumSegments := 0, currentX := 0.0, currentY := 0.0,
      startX := 0.0, startY := 0.0 }).maxNumSegments

/-! ## Item procedures -/

/-- `PathCoords`: the "coords" widget command.  The arguments are given as
the list `objv`, and `objc` is its length.  The result is the return code,
the updated item and the object that `PathCoords` itself hands to
`Tcl_SetObjResult`, if any. -/
def PathCoords (env : PathEnv) (canvas : TkCanvas) (itemPtr : PathItem)
    (objv : List Tcl_Obj) : Int × PathItem × Option Tcl_Obj :=
  let pathPtr := itemPtr
  match objv with
  | [] =>
    let pathPtr :=
      if pathPtr.flags &&& kPathItemNeedNewNormalizedPath ≠ 0 then
        { pathPtr with normPathObjPtr := some (env.TkPathNormalize pathPtr.atomPtr) }
      else pathPtr
    (TCL_OK, pathPtr, pathPtr.normPathObjPtr)
  | [obj] =>
    let parsed := env.TkPathParseToAtoms obj
    let result := parsed.1
    let atomPtr := parsed.2.1
    let len := parsed.2.2
    if result = TCL_OK then
      let pathPtr := { pathPtr with atomPtr := atomPtr }
      let pathPtr := { pathPtr with pathLen := len }
      let pathPtr := { pathPtr with pathObjPtr := some obj }
      let pathPtr := ComputePathBbox env canvas pathPtr
      let pathPtr := { pathPtr with maxNumSegments := GetSubpathMaxNumSegments env atomPtr }
      (result, pathPtr, none)
    else (result, pathPtr, none)
  | _ => (TCL_ERROR, pathPtr, none)

/-- `ConfigurePath`: applies the options and recomputes the total and the
header bbox from the bare bbox.  The call of `Tk_ConfigPathStylesGC`, whose
result `mask` is not used, is left out. -/
def ConfigurePath (env : PathEnv) (canvas : TkCanvas) (itemPtr : PathItem)
    (objv : List Tcl_Obj) : Int × PathItem :=
  let cfg := env.Tk_ConfigureWidget objv
    { style := itemPtr.style, styleName := itemPtr.styleName, state := itemPtr.header.state }
  let pathPtr : PathItem :=
    { itemPtr with
      style := cfg.2.style, styleName := cfg.2.styleName,
      header := { itemPtr.header with state := cfg.2.state } }
  if TCL_OK ≠ cfg.1 then (TCL_ERROR, pathPtr)
  else
    let style := pathPtr.style
    let style := { style with strokeOpacity := max 0.0 (min 1.0 style.strokeOpacity) }
    let style := { style with fillOpacity := max 0.0 (min 1.0 style.fillOpacity) }
    let style :=
      match pathPtr.styleName with
      | some name => env.PathStyleMergeStyles style name
      | none => style
    let pathPtr := { pathPtr with style := style }
    let state := pathPtr.header.state
    let state := if state = Tk_State.TK_STATE_NULL then canvas.canvas_state else state
    if state = Tk_State.TK_STATE_HIDDEN then (TCL_OK, pathPtr)
    else
      let pathPtr := SetTotalBboxFromBare env pathPtr
      let pathPtr := SetPathHeaderBbox env pathPtr
      (TCL_OK, pathPtr)

/-- `DeletePath`: releases what the item holds. -/
def DeletePath (pathPtr : PathItem) : PathItem :=
  { pathPtr with atomPtr := [] }

/-- `CreatePath`: initialises the record of a new item, whose header the
canvas has set up, then sets the path and the options.  The result is `none`
when the canvas passes no argument at all (`Tcl_Panic`). -/
def CreatePath (env : PathEnv) (canvas : TkCanvas) (itemPtr : Tk_Item)
    (objv : List Tcl_Obj) : Option (Int × PathItem) :=
  match objv with
  | [] => none
  | obj :: rest =>
    let pathPtr : PathItem :=
      { header := itemPtr
        style := env.Tk_CreatePathStyle
        pathObjPtr := none
        pathLen := 0
        normPathObjPtr := none
        styleName := none
        atomPtr := []
        bareBbox := NewEmptyPathRect
        totalBbox := NewEmptyPathRect
        maxNumSegments := 0
        flags := 0 }
    let pathPtr := { pathPtr with flags := pathPtr.flags ||| kPathItemNeedNewNormalizedPath }
    let r := PathCoords env canvas pathPtr [obj]
    if r.1 ≠ TCL_OK then some (TCL_ERROR, DeletePath r.2.1)
    else
      let c := ConfigurePath env canvas r.2.1 rest
      if c.1 = TCL_OK then some (TCL_OK, c.2)
      else some (TCL_ERROR, DeletePath c.2)

/-- `ScalePath`: rescales the item about `(originX, originY)`. -/
def ScalePath (env : PathEnv) (itemPtr : PathItem)
    (originX originY scaleX scaleY : ℚ) : PathItem :=
  let pathPtr := itemPtr
  let pathPtr :=
    { pathPtr with atomPtr := env.ScalePathAtoms pathPtr.atomPtr originX originY scaleX scaleY }
  let pathPtr := { pathPtr with flags := pathPtr.flags ||| kPathItemNeedNewNormalizedPath }
  let r := pathPtr.bareBbox
  let r := { r with x1 := originX + scaleX * (r.x1 - originX) }
  let r := { r with y1 := originY + scaleX * (r.y1 - originY) }
  let r := { r with x2 := originX + scaleX * (r.x2 - originX) }
  let r := { r with y2 := originY + scaleX * (r.y2 - originY) }
  let r := NormalizePathRect r
  let pathPtr := { pathPtr with bareBbox := r }
  let r := pathPtr.totalBbox
  let r := { r with x1 := originX + scaleX * (r.x1 - originX) }
  let r := { r with y1 := originY + scaleX * (r.y1 - originY) }
  let r := { r with x2 := originX + scaleX * (r.x2 - originX) }
  let r := { r with y2 := originY + scaleX * (r.y2 - originY) }
  let r := NormalizePathRect r
  { pathPtr with bareBbox := r }

/-- `TranslatePath`: moves the item by `(deltaX, deltaY)`. -/
def TranslatePath (env : PathEnv) (itemPtr : PathItem) (deltaX deltaY : ℚ) : PathItem :=
  let pathPtr := itemPtr
  let pathPtr := { pathPtr with atomPtr := env.TranslatePathAtoms pathPtr.atomPtr deltaX deltaY }
  let pathPtr := { pathPtr with flags := pathPtr.flags ||| kPathItemNeedNewNormalizedPath }
  let pathPtr := { pathPtr with bareBbox := TranslatePathRect pathPtr.bareBbox deltaX deltaY }
  let pathPtr := { pathPtr with totalBbox := TranslatePathRect pathPtr.totalBbox deltaX deltaY }
  { pathPtr with
    header := { pathPtr.header with
      x1 := cInt pathPtr.totalBbox.x1, x2 := cInt pathPtr.totalBbox.x2,
      y1 := cInt pathPtr.totalBbox.y1, y2 := cInt pathPtr.totalBbox.y2 } }

/-- The items the canvas can hold: the result of a successful `CreatePath`,
then any sequence of calls of the coords, configure, scale and translate
procedures of the item type. -/
inductive Reachable (env : PathEnv) : PathItem → Prop where
  | create (canvas : TkCanvas) (hdr : Tk_Item) (objv : List Tcl_Obj) (item : PathItem) :
      CreatePath env canvas hdr objv = some (TCL_OK, item) → Reachable env item
  | coords (canvas : TkCanvas) (item : PathItem) (objv : List Tcl_Obj) :
      Reachable env item → Reachable env (PathCoords env canvas item objv).2.1
  | configure (canvas : TkCanvas) (item : PathItem) (objv : List Tcl_Obj) :
      Reachable env item → Reachable env (ConfigurePath env canvas item objv).2
  | scale (item : PathItem) (originX originY scaleX scaleY : ℚ) :
      Reachable env item → Reachable env (ScalePath env item originX originY scaleX scaleY)
  | translate (item : PathItem) (deltaX deltaY : ℚ) :
      Reachable env item → Reachable env (TranslatePath env item deltaX deltaY)

/-! ## Distance to a line segment -/

/-- `TkLineToPoint2`: distance from `pointPtr` to the segment from `end1Ptr`
to `end2Ptr`, over the reals. -/
noncomputable def TkLineToPoint2 (end1Ptr end2Ptr pointPtr : ℝ × ℝ) : ℝ :=
  let dx := end1Ptr.1 - end2Ptr.1
  let dy := end1Ptr.2 - end2Ptr.2
  let a2 := dx * dx + dy * dy
  let dx := end1Ptr.1 - pointPtr.1
  let dy := end1Ptr.2 - pointPtr.2
  let b2 := dx * dx + dy * dy
  let dx := end2Ptr.1 - pointPtr.1
  let dy := end2Ptr.2 - pointPtr.2
  let c2 := dx * dx + dy * dy
  if c2 ≥ a2 + b2 then
    Real.sqrt b2
  else if b2 ≥ a2 + c2 then
    Real.sqrt c2
  else
    let delta := (a2 + b2 - c2) / (2.0 * Real.sqrt a2)
    Real.sqrt (max 0.0 (b2 - delta * delta))

/-! ## Notions of the specification -/

/-- Euclidean distance in the plane. -/
noncomputable def euclidDist (p q : ℝ × ℝ) : ℝ :=
  Real.sqrt ((p.1 - q.1) ^ 2 + (p.2 - q.2) ^ 2)

/-- The point `e1 + t * (e2 - e1)` of the line through `e1` and `e2`. -/
def segmentPoint (e1 e2 : ℝ × ℝ) (t : ℝ) : ℝ × ℝ :=
  (e1.1 + t * (e2.1 - e1.1), e1.2 + t * (e2.2 - e1.2))

/-- The box `outer` contains the box `inner` on all four sides. -/
def RectContains (outer inner : PathRect) : Prop :=
  outer.x1 ≤ inner.x1 ∧ outer.y1 ≤ inner.y1 ∧ inner.x2 ≤ outer.x2 ∧ inner.y2 ≤ outer.y2

instance (outer inner : PathRect) : Decidable (RectContains outer inner) := by
  unfold RectContains
  infer_instance

/-- The image of a box under the scaling about `(originX, originY)`, put in
normalized form. -/
def scaledRect (r : PathRect) (originX originY scaleX scaleY : ℚ) : PathRect :=
  let u1 := originX + scaleX * (r.x1 - originX)
  let u2 := originX + scaleX * (r.x2 - originX)
  let v1 := originY + scaleY * (r.y1 - originY)
  let v2 := originY + scaleY * (r.y2 - originY)
  { x1 := min u1 u2, y1 := min v1 v2, x2 := max u1 u2, y2 := max v1 v2 }

/-- The margin by which the specification grows the bare bbox: the stroke
width, at least 1.0, when a stroke colour is set, plus the fudge margin, which
is 2 with antialiasing and 1 without. -/
def totalMargin (env : PathEnv) (style : Tk_PathStyle) : ℚ :=
  let fudge : ℚ := if env.gUseAntiAlias ≠ 0 then 2 else 1
  if style.strokeColor ≠ none then max style.strokeWidth 1.0 + fudge else fudge

/-- The four corners `(x1,y1)`, `(x2,y1)`, `(x1,y2)`, `(x2,y2)` of a box. -/
def corners (r : PathRect) : List (ℚ × ℚ) :=
  [(r.x1, r.y1), (r.x2, r.y1), (r.x1, r.y2), (r.x2, r.y2)]

/-- The least of four numbers. -/
def leastOfFour (p q r s : ℚ) : ℚ := min p (min q (min r s))

/-- The greatest of four numbers. -/
def greatestOfFour (p q r s : ℚ) : ℚ := max p (max q (max r s))

/-- A coordinate lies within the range spanned by the sentinels of the empty
rect. -/
def InSentinelRange (v : ℚ) : Prop := NewEmptyPathRect.x2 ≤ v ∧ v ≤ NewEmptyPathRect.x1

/-! ## A concrete environment

Used to run the procedures on concrete items. -/

/-- The usual action of an affine matrix on a point. -/
def applyAffine (m : TMatrix) (p : ℚ × ℚ) : ℚ × ℚ :=
  (p.1 * m.a + p.2 * m.c + m.tx, p.1 * m.b + p.2 * m.d + m.ty)

/-- The end point of an atom. -/
def atomEnd : PathAtom → ℚ × ℚ
  | PathAtom.M x y => (x, y)
  | PathAtom.L x y => (x, y)
  | PathAtom.A _ _ _ _ _ x y => (x, y)
  | PathAtom.Q _ _ x y => (x, y)
  | PathAtom.C _ _ _ _ x y => (x, y)
  | PathAtom.Z x y => (x, y)

/-- The command letter of an atom. -/
def atomLetter : PathAtom → String
  | PathAtom.M _ _ => "M"
  | PathAtom.L _ _ => "L"
  | PathAtom.A _ _ _ _ _ _ _ => "A"
  | PathAtom.Q _ _ _ _ => "Q"
  | PathAtom.C _ _ _ _ _ _ => "C"
  | PathAtom.Z _ _ => "Z"

/-- An environment for paths made of straight lines: the parser knows the
single path `M 0 0 L 10 10`, the bare bbox is the union of the end points,
and configuring changes nothing. -/
def lineEnv : PathEnv :=
  { gUseAntiAlias := 0
    kPathNumSegmentsQuadBezier := 12
    kPathNumSegmentsCurveTo := 18
    DEGREES_TO_RADIANS := 355 / (113 * 180)
    EndpointToCentralArcParameters := fun _ _ _ _ _ _ _ _ _ =>
      (ArcResult.kPathArcSkip, { cx := 0, cy := 0, rx := 0, ry := 0, theta1 := 0, dtheta := 0 })
    GetGenericBarePathBbox := fun atoms =>
      atoms.foldl (fun r a => IncludePointInRect r (atomEnd a).1 (atomEnd a).2) NewEmptyPathRect
    PathApplyTMatrix := applyAffine
    TkPathParseToAtoms := fun obj =>
      if obj = "M 0 0 L 10 10" then (TCL_OK, [PathAtom.M 0 0, PathAtom.L 10 10], 6)
      else (TCL_ERROR, [], 0)
    TkPathNormalize := fun atoms => String.intercalate " " (atoms.map atomLetter)
    ScalePathAtoms := fun atoms _ _ _ _ => atoms
    TranslatePathAtoms := fun atoms _ _ => atoms
    Tk_ConfigureWidget := fun _ f => (TCL_OK, f)
    PathStyleMergeStyles := fun style _ => style
    Tk_CreatePathStyle :=
      { strokeColor := none, strokeWidth := 1, strokeOpacity := 1, fillOpacity := 1,
        matrixPtr := none } }

/-- The item of the path `M 0 0 L 10 10` without stroke and without
antialiasing: bare bbox `(0,0,10,10)`, total bbox `(-1,-1,11,11)`. -/
def lineItem : PathItem :=
  { header := { x1 := -1, y1 := -1, x2 := 11, y2 := 11, state := Tk_State.TK_STATE_NULL }
    style := lineEnv.Tk_CreatePathStyle
    styleName := none
    pathObjPtr := some "M 0 0 L 10 10"
    pathLen := 6
    normPathObjPtr := none
    atomPtr := [PathAtom.M 0 0, PathAtom.L 10 10]
    bareBbox := { x1 := 0, y1 := 0, x2 := 10, y2 := 10 }
    totalBbox := { x1 := -1, y1 := -1, x2 := 11, y2 := 11 }
    maxNumSegments := 2
    flags := 1 }

/-- The union of the images of the four corners of a box under a map of the
plane: the least box that holds the four image points. -/
def cornersUnion (f : ℚ × ℚ → ℚ × ℚ) (r : PathRect) : PathRect :=
  let p1 := f (r.x1, r.y1)
  let p2 := f (r.x2, r.y1)
  let p3 := f (r.x1, r.y2)
  let p4 := f (r.x2, r.y2)
  { x1 := leastOfFour p1.1 p2.1 p3.1 p4.1, y1 := leastOfFour p1.2 p2.2 p3.2 p4.2,
    x2 := greatestOfFour p1.1 p2.1 p3.1 p4.1, y2 := greatestOfFour p1.2 p2.2 p3.2 p4.2 }

/-- The matrix of the rotation by a quarter turn: `(x, y)` goes to `(-y, x)`. -/
def quarterTurn : TMatrix := { a := 0, b := 1, c := -1, d := 0, tx := 0, ty := 0 }

/-- The item `lineItem` with the quarter turn as style matrix. -/
def turnedItem : PathItem :=
  { lineItem with style := { lineItem.style with matrixPtr := some quarterTurn } }

/-- The canvas in its normal state. -/
def normalCanvas : TkCanvas := { canvas_state := Tk_State.TK_STATE_NORMAL }

/-- The header of an item the canvas has just allocated. -/
def freshHeader : Tk_Item :=
  { x1 := 0, y1 := 0, x2 := 0, y2 := 0, state := Tk_State.TK_STATE_NULL }

/-- Modelled from the spec: `EndpointToCentralArcParameters` is not among the
translated sources.  Coincident end points are classified as an arc to skip
and a zero radius as a straight line; the example covers one proper arc, the
quarter circle about the origin that starts on the positive x axis, for which
the centre is `(0, 0)`, the start angle 0 and the angular extent a quarter
turn in radians (half of the extent `π` the specification gives for a half
circle), as the double `1.5707963267948966`. -/
def quarterArcConversion (x1 y1 x2 y2 rx ry _phi : ℚ) (_largeArcFlag _sweepFlag : Int) :
    ArcResult × ArcCentral :=
  if x1 = x2 ∧ y1 = y2 then
    (ArcResult.kPathArcSkip, { cx := 0, cy := 0, rx := rx, ry := ry, theta1 := 0, dtheta := 0 })
  else if rx = 0 ∨ ry = 0 then
    (ArcResult.kPathArcLine, { cx := 0, cy := 0, rx := rx, ry := ry, theta1 := 0, dtheta := 0 })
  else
    (ArcResult.kPathArcOK,
      { cx := 0, cy := 0, rx := rx, ry := ry, theta1 := 0, dtheta := 1.5707963267948966 })

/-- The environment `lineEnv` with the arc conversion `quarterArcConversion`. -/
def arcEnv : PathEnv :=
  { lineEnv with EndpointToCentralArcParameters := quarterArcConversion }

/-! ## Subpaths and their segment counts, as the specification describes them -/

/-- Whether the atom is a MoveTo. -/
def isMoveTo : PathAtom → Bool
  | PathAtom.M _ _ => true
  | _ => false

/-- The number of segments an atom contributes when drawn from the current
point `cur`: 1 for a LineTo and for a Close, the fixed constant for a Bezier
curve, `GetArcNumSegments` for an arc.  A MoveTo draws nothing. -/
def atomSegments (env : PathEnv) (cur : ℚ × ℚ) : PathAtom → Int
  | PathAtom.M _ _ => 0
  | PathAtom.L _ _ => 1
  | PathAtom.A radX radY angle largeArcFlag sweepFlag x y =>
    GetArcNumSegments env cur.1 cur.2 radX radY angle largeArcFlag sweepFlag x y
  | PathAtom.Q _ _ _ _ => env.kPathNumSegmentsQuadBezier
  | PathAtom.C _ _ _ _ _ _ => env.kPathNumSegmentsCurveTo
  | PathAtom.Z _ _ => 1

/-- The current point after an atom of a subpath that starts at `start`: the
end point of the atom, and the start of the subpath after a Close. -/
def pointAfter (start : ℚ × ℚ) : PathAtom → ℚ × ℚ
  | PathAtom.M x y => (x, y)
  | PathAtom.L x y => (x, y)
  | PathAtom.A _ _ _ _ _ x y => (x, y)
  | PathAtom.Q _ _ anchorX anchorY => (anchorX, anchorY)
  | PathAtom.C _ _ _ _ anchorX anchorY => (anchorX, anchorY)
  | PathAtom.Z _ _ => start

/-- The sum of the contributions of the atoms of a run drawn from `cur` in a
subpath that starts at `start`. -/
def runSegments (env : PathEnv) (start : ℚ × ℚ) : ℚ × ℚ → List PathAtom → Int
  | _, [] => 0
  | cur, a :: rest => atomSegments env cur a + runSegments env start (pointAfter start a) rest

/-- The segment count of a subpath, a MoveTo followed by a run: 1 plus the sum
of the contributions of the run. -/
def subpathSegments (env : PathEnv) : List PathAtom → Int
  | PathAtom.M x y :: rest => 1 + runSegments env (x, y) (x, y) rest
  | _ => 0

/-- Cuts an atom list at its MoveTo atoms: the run before the first MoveTo,
and the subpaths, each a maximal run that starts at a MoveTo. -/
def splitAtMoves : List PathAtom → List PathAtom × List (List PathAtom)
  | [] => ([], [])
  | a :: rest =>
    if isMoveTo a then ([], (a :: (splitAtMoves rest).1) :: (splitAtMoves rest).2)
    else (a :: (splitAtMoves rest).1, (splitAtMoves rest).2)

/-- The subpaths of an atom list. -/
def subpaths (atoms : List PathAtom) : List (List PathAtom) := (splitAtMoves atoms).2

/-- The switch of the loop body of `GetSubpathMaxNumSegments`, without the
update of the maximum that follows it. -/
def segSwitch (env : PathEnv) (s : SegLoop) (atom : PathAtom) : SegLoop :=
  match atom with
  | PathAtom.M x y =>
    { s with num := 1, currentX := x, currentY := y, startX := x, startY := y }
  | a =>
    { s with
      num := s.num + atomSegments env (s.currentX, s.currentY) a,
      currentX := (pointAfter (s.startX, s.startY) a).1,
      currentY := (pointAfter (s.startX, s.startY) a).2 }

/-- Two atoms that agree but for the control points of a Bezier curve: the
second is the first with other control points and the same anchor. -/
inductive SameAnchors : PathAtom → PathAtom → Prop where
  | same (a : PathAtom) : SameAnchors a a
  | quad (ctrlX ctrlY newCtrlX newCtrlY anchorX anchorY : ℚ) :
      SameAnchors (PathAtom.Q ctrlX ctrlY anchorX anchorY)
        (PathAtom.Q newCtrlX newCtrlY anchorX anchorY)
  | cubic (ctrlX1 ctrlY1 ctrlX2 ctrlY2 newCtrlX1 newCtrlY1 newCtrlX2 newCtrlY2
      anchorX anchorY : ℚ) :
      SameAnchors (PathAtom.C ctrlX1 ctrlY1 ctrlX2 ctrlY2 anchorX anchorY)
        (PathAtom.C newCtrlX1 newCtrlY1 newCtrlX2 newCtrlY2 anchorX anchorY)

/-- The state that counts for an item: its own state, or the state of the
canvas when its own state is `TK_STATE_NULL`. -/
def effectiveState (canvas : TkCanvas) (pathPtr : PathItem) : Tk_State :=
  if pathPtr.header.state = Tk_State.TK_STATE_NULL then canvas.canvas_state
  else pathPtr.header.state

/-- The environment `lineEnv` with a parser that also knows the path `M 5 5`,
a single MoveTo, whose list has 3 elements. -/
def pointEnv : PathEnv :=
  { lineEnv with
    TkPathParseToAtoms := fun obj =>
      if obj = "M 5 5" then (TCL_OK, [PathAtom.M 5 5], 3)
      else lineEnv.TkPathParseToAtoms obj }

/-! ## Drawing with cairo (`unix/tkUnixCairoPath.c`) -/

/-- The arguments of a call of `cairo_curve_to`: two control points and the
end point of a cubic Bezier curve that starts at the current point. -/
structure CurveToArgs (K : Type) where
  x1 : K
  y1 : K
  x2 : K
  y2 : K
  x3 : K
  y3 : K

/-- `TkPathQuadBezier`: draws a quadratic Bezier curve as a cubic one.  The
current point `(cx, cy)` is what `cairo_get_current_point` gives, and the
result is the argument list of the call of `cairo_curve_to`.  The numbers are
taken in any field `K`: the rationals to compute, the reals to reason. -/
def TkPathQuadBezier {K : Type} [Field K] (cx cy : K) (ctrlX ctrlY x y : K) : CurveToArgs K :=
  let x31 := cx + (ctrlX - cx) * 2 / 3
  let y31 := cy + (ctrlY - cy) * 2 / 3
  let x32 := ctrlX + (x - ctrlX) / 3
  let y32 := ctrlY + (y - ctrlY) / 3
  { x1 := x31, y1 := y31, x2 := x32, y2 := y32, x3 := x, y3 := y }

/-- One coordinate of the quadratic Bezier curve with control values `p0`,
`c`, `p` at the parameter `t`. -/
def quadBezierAt {K : Type} [Field K] (p0 c p t : K) : K :=
  (1 - t) ^ 2 * p0 + 2 * (1 - t) * t * c + t ^ 2 * p

/-- One coordinate of the cubic Bezier curve with control values `p0`, `c1`,
`c2`, `p` at the parameter `t`. -/
def cubicBezierAt {K : Type} [Field K] (p0 c1 c2 p t : K) : K :=
  (1 - t) ^ 3 * p0 + 3 * (1 - t) ^ 2 * t * c1 + 3 * (1 - t) * t ^ 2 * c2 + t ^ 3 * p

/-- The record of a memory surface (`PathSurfaceCairoRecord`), without the
pixel format.  The bitmap `data` is given by the byte at each offset from its
start. -/
structure PathSurfaceCairoRecord where
  data : Int → Int
  width : Int
  height : Int
  stride : Int

/-- `TkPathInitSurface`: the record of a new memory surface, with the stride
rounded up and the bitmap cleared.  The bitwise operations are those of
two's complement integers. -/
def TkPathInitSurface (width height : Int) : PathSurfaceCairoRecord :=
  let stride := 4 * width
  let stride := Int.land (stride + (16 - 1)) (~~~(16 - 1))
  { data := fun _ => 0, width := width, height := height, stride := stride }

/-- The values `lo`, `lo + 1`, ... a loop variable takes in `count` passes. -/
def countFrom (lo : Int) : Nat → List Int
  | 0 => []
  | count + 1 => lo :: countFrom (lo + 1) count

/-- The values of `v` in `for (v = lo; v < hi; v++)`. -/
def forLoopValues (lo hi : Int) : List Int := countFrom lo (hi - lo).toNat

/-- The inner loop of `TkPathSurfaceErase`,
`for (j = x; j < xend; j++, dst += 4)`: the pixels it clears in row `i`, each
with its column `j`, its row and the offset `dst` of its first byte. -/
def eraseRowLoop (i : Int) : Int → List Int → List (Int × Int × Int)
  | _, [] => []
  | dst, j :: js => (j, i, dst) :: eraseRowLoop i (dst + 4) js

/-- The pixels `TkPathSurfaceErase` clears, in the order of its two loops:
column, row and offset of the first of the four bytes set to zero. -/
def TkPathSurfaceErasePixels (record : PathSurfaceCairoRecord)
    (dx dy dwidth dheight : ℚ) : List (Int × Int × Int) :=
  let stride := record.stride
  let x := cInt (dx + 0.5)
  let y := cInt (dy + 0.5)
  let width := cInt (dwidth + 0.5)
  let height := cInt (dheight + 0.5)
  let x := max 0 (min record.width x)
  let y := max 0 (min record.height y)
  let width := max 0 width
  let height := max 0 height
  let xend := min (x + width) record.width
  let yend := min (y + height) record.height
  (forLoopValues y yend).flatMap
    (fun i => eraseRowLoop i (i * stride + 4 * x) (forLoopValues x xend))

/-- `TkPathSurfaceErase`: sets the four bytes of each pixel of the loops to
zero. -/
def TkPathSurfaceErase (record : PathSurfaceCairoRecord)
    (dx dy dwidth dheight : ℚ) : PathSurfaceCairoRecord :=
  { record with
    data := fun offset =>
      if (TkPathSurfaceErasePixels record dx dy dwidth dheight).any
          (fun p => decide (p.2.2 ≤ offset ∧ offset < p.2.2 + 4))
      then 0x00 else record.data offset }

/-- A surface of 3 by 2 pixels with stride 16 whose bytes are all 255. -/
def smallSurface : PathSurfaceCairoRecord :=
  { data := fun _ => 255, width := 3, height := 2, stride := 16 }

/-- The squared distance of two points, as `TkLineToPoint2` computes `a2`,
`b2` and `c2`. -/
def sqDist (p q : ℝ × ℝ) : ℝ :=
  (p.1 - q.1) * (p.1 - q.1) + (p.2 - q.2) * (p.2 - q.2)

/-! ## The miter bbox (`GetMiterBbox`) -/

/-- Local variables of the loop of `GetMiterBbox`. -/
structure MiterLoop where
  npts : Int
  p1 : ℚ × ℚ
  p2 : ℚ × ℚ
  p3 : ℚ × ℚ
  current : ℚ × ℚ
  second : ℚ × ℚ
  bounds : PathRect

/-- `IncludeMiterPointsInRect`: includes the two miter points of the join of
`p1`, `p2`, `p3` in the bounds.  `TkGetMiterPoints`, defined elsewhere, is a
parameter and returns the two points it writes. -/
def IncludeMiterPointsInRect
    (TkGetMiterPoints : ℚ × ℚ → ℚ × ℚ → ℚ × ℚ → ℚ → (ℚ × ℚ) × (ℚ × ℚ))
    (p1 p2 p3 : ℚ × ℚ) (bounds : PathRect) (width : ℚ) : PathRect :=
  let m := TkGetMiterPoints p1 p2 p3 width
  let bounds := IncludePointInRect bounds m.1.1 m.1.2
  IncludePointInRect bounds m.2.1 m.2.2

/-- The statements `CopyPoint(p2, p3); CopyPoint(p1, p2);` followed by the
assignment of `pt` to `p1` and by `npts++`, which the cases of the loop of
`GetMiterBbox` share: `CopyPoint(src, dst)` copies `src` to `dst`. -/
def miterShift (s : MiterLoop) (pt : ℚ × ℚ) : MiterLoop :=
  { s with p3 := s.p2, p2 := s.p1, p1 := pt, npts := s.npts + 1 }

/-- The statement
`if (npts >= 3) IncludeMiterPointsInRect(p1, p2, p3, &bounds, width);`
of the loop of `GetMiterBbox`. -/
def miterInclude
    (TkGetMiterPoints : ℚ × ℚ → ℚ × ℚ → ℚ × ℚ → ℚ → (ℚ × ℚ) × (ℚ × ℚ))
    (width : ℚ) (s : MiterLoop) : MiterLoop :=
  if s.npts ≥ 3 then
    { s with bounds := IncludeMiterPointsInRect TkGetMiterPoints s.p1 s.p2 s.p3 s.bounds width }
  else s

/-- The case `PATH_ATOM_M` of the loop of `GetMiterBbox`. -/
def miterMoveTo (s : MiterLoop) (x y : ℚ) : MiterLoop :=
  { s with current := (x, y), p1 := (x, y), npts := 1 }

/-- The case `PATH_ATOM_L` of the loop of `GetMiterBbox`. -/
def miterLineTo
    (TkGetMiterPoints : ℚ × ℚ → ℚ × ℚ → ℚ × ℚ → ℚ → (ℚ × ℚ) × (ℚ × ℚ))
    (width : ℚ) (s : MiterLoop) (x y : ℚ) : MiterLoop :=
  miterInclude TkGetMiterPoints width (miterShift { s with current := (x, y) } (x, y))

/-- The case `PATH_ATOM_Q` of the loop of `GetMiterBbox`: after the join at
the control point, `CopyPoint(p1, p2)`, the anchor goes to `p1` and
`npts += 2`. -/
def miterQuadBezier
    (TkGetMiterPoints : ℚ × ℚ → ℚ × ℚ → ℚ × ℚ → ℚ → (ℚ × ℚ) × (ℚ × ℚ))
    (width : ℚ) (s : MiterLoop) (ctrlX ctrlY anchorX anchorY : ℚ) : MiterLoop :=
  let s := miterInclude TkGetMiterPoints width
    (miterShift { s with current := (anchorX, anchorY) } (ctrlX, ctrlY))
  { s with p2 := s.p1, p1 := (anchorX, anchorY), npts := s.npts + 2 }

/-- The case `PATH_ATOM_C` of the loop of `GetMiterBbox`: after the join at
the first control point, `p1` is assigned `ctrlX2`, `ctrlY2`, then
`p1[0] = curve->anchorX; p1[1] = curve->anchorX;`, and `npts += 2`. -/
def miterCurveTo
    (TkGetMiterPoints : ℚ × ℚ → ℚ × ℚ → ℚ × ℚ → ℚ → (ℚ × ℚ) × (ℚ × ℚ))
    (width : ℚ) (s : MiterLoop) (ctrlX1 ctrlY1 ctrlX2 ctrlY2 anchorX anchorY : ℚ) : MiterLoop :=
  let s := miterInclude TkGetMiterPoints width
    (miterShift { s with current := (anchorX, anchorY) } (ctrlX1, ctrlY1))
  let s := { s with p1 := (ctrlX2, ctrlY2) }
  { s with p1 := (anchorX, anchorX), npts := s.npts + 2 }

/-- The case `PATH_ATOM_Z` of the loop of `GetMiterBbox`: the join at the
closing point, then the join of the last segment with the first one, for which
`CopyPoint(p2, p3); CopyPoint(p1, p2); CopyPoint(second, p1);`. -/
def miterClose
    (TkGetMiterPoints : ℚ × ℚ → ℚ × ℚ → ℚ × ℚ → ℚ → (ℚ × ℚ) × (ℚ × ℚ))
    (width : ℚ) (s : MiterLoop) (x y : ℚ) : MiterLoop :=
  let s := miterInclude TkGetMiterPoints width (miterShift { s with current := (x, y) } (x, y))
  miterInclude TkGetMiterPoints width { s with p3 := s.p2, p2 := s.p1, p1 := s.second }

/-- One pass through the body of the loop of `GetMiterBbox`: the switch on the
type of the atom, then `if (npts == 2) CopyPoint(current, second);`. -/
def miterLoopBody
    (TkGetMiterPoints : ℚ × ℚ → ℚ × ℚ → ℚ × ℚ → ℚ → (ℚ × ℚ) × (ℚ × ℚ))
    (width : ℚ) (s : MiterLoop) (atom : PathAtom) : MiterLoop :=
  let s :=
    match atom with
    | PathAtom.M x y => miterMoveTo s x y
    | PathAtom.L x y => miterLineTo TkGetMiterPoints width s x y
    | PathAtom.A _ _ _ _ _ x y => { s with current := (x, y) }
    | PathAtom.Q ctrlX ctrlY anchorX anchorY =>
      miterQuadBezier TkGetMiterPoints width s ctrlX ctrlY anchorX anchorY
    | PathAtom.C ctrlX1 ctrlY1 ctrlX2 ctrlY2 anchorX anchorY =>
      miterCurveTo TkGetMiterPoints width s ctrlX1 ctrlY1 ctrlX2 ctrlY2 anchorX anchorY
    | PathAtom.Z x y => miterClose TkGetMiterPoints width s x y
  if s.npts = 2 then { s with second := s.current } else s

/-- The values the arrays `p1`, `p2`, `p3` and `second` of `GetMiterBbox`,
which are not initialised, hold when the loop starts. -/
structure MiterUninit where
  p1 : ℚ × ℚ
  p2 : ℚ × ℚ
  p3 : ℚ × ℚ
  second : ℚ × ℚ

/-- The local variables of `GetMiterBbox` before the loop. -/
def miterLoopStart (uninit : MiterUninit) : MiterLoop :=
  { npts := 0, p1 := uninit.p1, p2 := uninit.p2, p3 := uninit.p3,
    current := (0.0, 0.0), second := uninit.second,
    bounds := { x1 := 1.0e36, y1 := 1.0e36, x2 := -1.0e36, y2 := -1.0e36 } }

/-- `GetMiterBbox`: the bounds of the miter points of the joins of the path. -/
def GetMiterBbox
    (TkGetMiterPoints : ℚ × ℚ → ℚ × ℚ → ℚ × ℚ → ℚ → (ℚ × ℚ) × (ℚ × ℚ))
    (uninit : MiterUninit) (atomPtr : List PathAtom) (width : ℚ) : PathRect :=
  (atomPtr.foldl (miterLoopBody TkGetMiterPoints width) (miterLoopStart uninit)).bounds

/-- The pixel in column `j` and row `i` lies in the requested rectangle
clipped to the surface: with `x0`, `y0`, `w`, `h` the rounded arguments, `w`
and `h` floored at 0, `max(0, x0) ≤ j < min(W, x0 + w)` and
`max(0, y0) ≤ i < min(H, y0 + h)`. -/
def inClippedRect (record : PathSurfaceCairoRecord) (dx dy dwidth dheight : ℚ)
    (j i : Int) : Prop :=
  max 0 (cInt (dx + 0.5)) ≤ j ∧
  j < min record.width (cInt (dx + 0.5) + max 0 (cInt (dwidth + 0.5))) ∧
  max 0 (cInt (dy + 0.5)) ≤ i ∧
  i < min record.height (cInt (dy + 0.5) + max 0 (cInt (dheight + 0.5)))

/-! ## Theorems -/

/-! ### Helper lemmas for `TkLineToPoint2` -/

theorem sq_delta (a2 s : ℝ) (ha : 0 < a2) :
    (s / (2.0 * Real.sqrt a2)) * (s / (2.0 * Real.sqrt a2)) = s ^ 2 / (4 * a2) := by
  have h := Real.mul_self_sqrt ha.le
  have h2 : (2.0 : ℝ) = 2 := by norm_num
  rw [h2, div_mul_div_comm, pow_two]
  congr 1
  calc 2 * Real.sqrt a2 * (2 * Real.sqrt a2) = 4 * (Real.sqrt a2 * Real.sqrt a2) := by ring
    _ = 4 * a2 := by rw [h]

/-- The squared distance from `p` to the point at parameter `t`, in terms of
the squared side lengths `a2`, `b2`, `c2` of `TkLineToPoint2`. -/
theorem sqDist_segmentPoint (e1 e2 p : ℝ × ℝ) (t : ℝ) :
    (p.1 - (segmentPoint e1 e2 t).1) ^ 2 + (p.2 - (segmentPoint e1 e2 t).2) ^ 2
      = ((e1.1 - p.1) * (e1.1 - p.1) + (e1.2 - p.2) * (e1.2 - p.2))
        - t * (((e1.1 - e2.1) * (e1.1 - e2.1) + (e1.2 - e2.2) * (e1.2 - e2.2))
              + ((e1.1 - p.1) * (e1.1 - p.1) + (e1.2 - p.2) * (e1.2 - p.2))
              - ((e2.1 - p.1) * (e2.1 - p.1) + (e2.2 - p.2) * (e2.2 - p.2)))
        + t ^ 2 * ((e1.1 - e2.1) * (e1.1 - e2.1) + (e1.2 - e2.2) * (e1.2 - e2.2)) := by
  simp only [segmentPoint]
  ring

/-- No point of the segment is closer to `p` than `TkLineToPoint2` says. -/
theorem TkLineToPoint2_le (e1 e2 p : ℝ × ℝ) (t : ℝ) (h0 : 0 ≤ t) (h1 : t ≤ 1) :
    TkLineToPoint2 e1 e2 p ≤ euclidDist p (segmentPoint e1 e2 t) := by
  unfold TkLineToPoint2 euclidDist
  have hD : 0 ≤ (p.1 - (segmentPoint e1 e2 t).1) ^ 2 + (p.2 - (segmentPoint e1 e2 t).2) ^ 2 := by
    positivity
  rw [sqDist_segmentPoint] at hD ⊢
  simp only []
  set a2 := (e1.1 - e2.1) * (e1.1 - e2.1) + (e1.2 - e2.2) * (e1.2 - e2.2) with ha2
  set b2 := (e1.1 - p.1) * (e1.1 - p.1) + (e1.2 - p.2) * (e1.2 - p.2) with hb2
  set c2 := (e2.1 - p.1) * (e2.1 - p.1) + (e2.2 - p.2) * (e2.2 - p.2) with hc2
  have ha : 0 ≤ a2 := add_nonneg (mul_self_nonneg _) (mul_self_nonneg _)
  split_ifs with hc hb
  · apply Real.sqrt_le_sqrt
    nlinarith [mul_nonneg h0 (sub_nonneg.mpr hc), mul_nonneg (sq_nonneg t) ha]
  · apply Real.sqrt_le_sqrt
    have h3 : 0 ≤ (1 - t) * ((a2 + b2 - c2) - (1 + t) * a2) := by
      apply mul_nonneg (by linarith)
      nlinarith
    nlinarith
  · push_neg at hc hb
    have hpos : 0 < a2 := by
      rcases ha.lt_or_eq with h | h
      · exact h
      · exfalso; rw [← h] at hc hb; linarith
    rw [sq_delta a2 _ hpos]
    apply Real.sqrt_le_sqrt
    have key : b2 - t * (a2 + b2 - c2) + t ^ 2 * a2 - (b2 - (a2 + b2 - c2) ^ 2 / (4 * a2))
        = a2 * (t - (a2 + b2 - c2) / (2 * a2)) ^ 2 := by
      field_simp
      ring
    have hk : 0 ≤ a2 * (t - (a2 + b2 - c2) / (2 * a2)) ^ 2 := by positivity
    have hz : (0.0 : ℝ) = 0 := by norm_num
    rw [hz]
    apply max_le
    · exact hD
    · linarith

/-- Some point of the segment lies at the distance `TkLineToPoint2` says. -/
theorem TkLineToPoint2_attained (e1 e2 p : ℝ × ℝ) :
    ∃ t : ℝ, 0 ≤ t ∧ t ≤ 1 ∧ TkLineToPoint2 e1 e2 p = euclidDist p (segmentPoint e1 e2 t) := by
  unfold TkLineToPoint2 euclidDist
  simp only [sqDist_segmentPoint]
  set a2 := (e1.1 - e2.1) * (e1.1 - e2.1) + (e1.2 - e2.2) * (e1.2 - e2.2) with ha2
  set b2 := (e1.1 - p.1) * (e1.1 - p.1) + (e1.2 - p.2) * (e1.2 - p.2) with hb2
  set c2 := (e2.1 - p.1) * (e2.1 - p.1) + (e2.2 - p.2) * (e2.2 - p.2) with hc2
  have ha : 0 ≤ a2 := add_nonneg (mul_self_nonneg _) (mul_self_nonneg _)
  split_ifs with hc hb
  · refine ⟨0, le_refl _, zero_le_one, ?_⟩
    congr 1
    ring
  · refine ⟨1, zero_le_one, le_refl _, ?_⟩
    congr 1
    ring
  · push_neg at hc hb
    have hpos : 0 < a2 := by
      rcases ha.lt_or_eq with h | h
      · exact h
      · exfalso; rw [← h] at hc hb; linarith
    refine ⟨(a2 + b2 - c2) / (2 * a2), ?_, ?_, ?_⟩
    · apply div_nonneg <;> linarith
    · rw [div_le_one (by linarith)]; linarith
    · rw [sq_delta a2 _ hpos]
      have hz : (0.0 : ℝ) = 0 := by norm_num
      have key : b2 - (a2 + b2 - c2) / (2 * a2) * (a2 + b2 - c2)
          + ((a2 + b2 - c2) / (2 * a2)) ^ 2 * a2 = b2 - (a2 + b2 - c2) ^ 2 / (4 * a2) := by
        field_simp
        ring
      have hCS : 0 ≤ b2 - (a2 + b2 - c2) ^ 2 / (4 * a2) := by
        have hD : 0 ≤ (p.1 - (segmentPoint e1 e2 ((a2 + b2 - c2) / (2 * a2))).1) ^ 2
            + (p.2 - (segmentPoint e1 e2 ((a2 + b2 - c2) / (2 * a2))).2) ^ 2 := by positivity
        rw [sqDist_segmentPoint] at hD
        rw [← key]
        exact hD
      rw [hz, max_eq_right hCS, key]

/-! ### The claims -/

/-- C1: over the reals, `TkLineToPoint2 e1 e2 p` is the minimum over `t` in
`[0,1]` of the Euclidean distance from `p` to `e1 + t * (e2 - e1)`, for all
end points (also when `e1 = e2`) and every point `p`. -/
theorem TkLineToPoint2_isLeast (e1 e2 p : ℝ × ℝ) :
    IsLeast (Set.image (fun t => euclidDist p (segmentPoint e1 e2 t)) (Set.Icc 0 1))
      (TkLineToPoint2 e1 e2 p) := by
  constructor
  · obtain ⟨t, h0, h1, h⟩ := TkLineToPoint2_attained e1 e2 p
    exact ⟨t, ⟨h0, h1⟩, h.symm⟩
  · rintro d ⟨t, ⟨h0, h1⟩, rfl⟩
    exact TkLineToPoint2_le e1 e2 p t h0 h1

/-- C2: for every `t` in `[0,1]`, `TkLineToPoint2` returns exactly 0 at the
point `e1 + t * (e2 - e1)` of the segment between the end points. -/
theorem TkLineToPoint2_on_segment (e1 e2 : ℝ × ℝ) (t : ℝ) (h0 : 0 ≤ t) (h1 : t ≤ 1) :
    TkLineToPoint2 e1 e2 (e1.1 + t * (e2.1 - e1.1), e1.2 + t * (e2.2 - e1.2)) = 0 := by
  have hle := TkLineToPoint2_le e1 e2 (e1.1 + t * (e2.1 - e1.1), e1.2 + t * (e2.2 - e1.2)) t h0 h1
  have hz : euclidDist (e1.1 + t * (e2.1 - e1.1), e1.2 + t * (e2.2 - e1.2))
      (segmentPoint e1 e2 t) = 0 := by
    simp [euclidDist, segmentPoint]
  obtain ⟨s, -, -, hs⟩ :=
    TkLineToPoint2_attained e1 e2 (e1.1 + t * (e2.1 - e1.1), e1.2 + t * (e2.2 - e1.2))
  have hnn : 0 ≤ TkLineToPoint2 e1 e2 (e1.1 + t * (e2.1 - e1.1), e1.2 + t * (e2.2 - e1.2)) := by
    rw [hs]; exact Real.sqrt_nonneg _
  linarith

/-- Witness of C2: the midpoint `(1, 2)` of the segment from `(0, 0)` to
`(2, 4)` is at distance 0. -/
theorem TkLineToPoint2_on_segment_witness :
    (0 : ℝ) ≤ 1 / 2 ∧ (1 / 2 : ℝ) ≤ 1 ∧
    TkLineToPoint2 (0, 0) (2, 4) (0 + 1 / 2 * (2 - 0), 0 + 1 / 2 * (4 - 0)) = 0 :=
  ⟨by norm_num, by norm_num,
    TkLineToPoint2_on_segment (0, 0) (2, 4) (1 / 2) (by norm_num) (by norm_num)⟩

/-- C3: the total bbox set by `SetTotalBboxFromBare` contains the bare bbox
on all four sides, for every bare bbox, stroke setting and antialias flag. -/
theorem SetTotalBboxFromBare_contains_bare (env : PathEnv) (pathPtr : PathItem) :
    (SetTotalBboxFromBare env pathPtr).totalBbox.x1 ≤ pathPtr.bareBbox.x1 ∧
    (SetTotalBboxFromBare env pathPtr).totalBbox.y1 ≤ pathPtr.bareBbox.y1 ∧
    pathPtr.bareBbox.x2 ≤ (SetTotalBboxFromBare env pathPtr).totalBbox.x2 ∧
    pathPtr.bareBbox.y2 ≤ (SetTotalBboxFromBare env pathPtr).totalBbox.y2 := by
  unfold SetTotalBboxFromBare
  simp only []
  have h1 : (1.0 : ℚ) = 1 := by norm_num
  rw [h1]
  split_ifs <;> refine ⟨?_, ?_, ?_, ?_⟩ <;> dsimp only <;> linarith

/-- C4: `SetTotalBboxFromBare` sets the total bbox to the bare bbox grown on
all four sides by exactly `totalMargin`, and leaves the bare bbox unchanged. -/
theorem SetTotalBboxFromBare_eq_grown (env : PathEnv) (pathPtr : PathItem) :
    (SetTotalBboxFromBare env pathPtr).totalBbox =
      { x1 := pathPtr.bareBbox.x1 - totalMargin env pathPtr.style
        y1 := pathPtr.bareBbox.y1 - totalMargin env pathPtr.style
        x2 := pathPtr.bareBbox.x2 + totalMargin env pathPtr.style
        y2 := pathPtr.bareBbox.y2 + totalMargin env pathPtr.style } ∧
    (SetTotalBboxFromBare env pathPtr).bareBbox = pathPtr.bareBbox := by
  refine ⟨?_, rfl⟩
  unfold SetTotalBboxFromBare totalMargin
  simp only []
  have h1 : (1.0 : ℚ) = 1 := by norm_num
  rw [h1]
  split_ifs with hs hw ha ha hw <;>
    simp only [PathRect.mk.injEq, max_def] <;>
    (split_ifs <;> refine ⟨?_, ?_, ?_, ?_⟩ <;> linarith)

/-- C5: with a style matrix, `SetPathHeaderBbox` sets the header bbox to the
truncated union of the images of the four corners of the total bbox (the
truncated minima for `x1`, `y1`, the truncated maxima for `x2`, `y2`), when
the images lie within the sentinels of the empty rect, which holds for every
value the cast to `int` is defined on; without a matrix the header bbox is
the truncated total bbox. -/
theorem SetPathHeaderBbox_corners (env : PathEnv) (pathPtr : PathItem) :
    (∀ m : TMatrix, pathPtr.style.matrixPtr = some m →
      (∀ c ∈ corners pathPtr.totalBbox,
        InSentinelRange (env.PathApplyTMatrix m c).1 ∧
        InSentinelRange (env.PathApplyTMatrix m c).2) →
      (SetPathHeaderBbox env pathPtr).header =
        { pathPtr.header with
          x1 := cInt (cornersUnion (env.PathApplyTMatrix m) pathPtr.totalBbox).x1
          y1 := cInt (cornersUnion (env.PathApplyTMatrix m) pathPtr.totalBbox).y1
          x2 := cInt (cornersUnion (env.PathApplyTMatrix m) pathPtr.totalBbox).x2
          y2 := cInt (cornersUnion (env.PathApplyTMatrix m) pathPtr.totalBbox).y2 }) ∧
    (pathPtr.style.matrixPtr = none →
      (SetPathHeaderBbox env pathPtr).header =
        { pathPtr.header with
          x1 := cInt pathPtr.totalBbox.x1, y1 := cInt pathPtr.totalBbox.y1
          x2 := cInt pathPtr.totalBbox.x2, y2 := cInt pathPtr.totalBbox.y2 }) := by
  constructor
  · intro m hm hr
    have h1 := hr (pathPtr.totalBbox.x1, pathPtr.totalBbox.y1) (by simp [corners])
    have h2 := hr (pathPtr.totalBbox.x2, pathPtr.totalBbox.y1) (by simp [corners])
    have h3 := hr (pathPtr.totalBbox.x1, pathPtr.totalBbox.y2) (by simp [corners])
    have h4 := hr (pathPtr.totalBbox.x2, pathPtr.totalBbox.y2) (by simp [corners])
    unfold InSentinelRange at h1 h2 h3 h4
    unfold SetPathHeaderBbox
    simp only [hm, IncludePointInRect, cornersUnion, leastOfFour, greatestOfFour]
    have hy1 : NewEmptyPathRect.y1 = NewEmptyPathRect.x1 := rfl
    have hy2 : NewEmptyPathRect.y2 = NewEmptyPathRect.x2 := rfl
    rw [hy1, hy2, min_eq_right h1.1.2, min_eq_right h1.2.2, max_eq_right h1.1.1, max_eq_right h1.2.1]
    simp only [min_assoc, max_assoc]
  · intro hm
    unfold SetPathHeaderBbox
    simp only [hm]

/-- Witness of C5: for the total bbox `(-1,-1,11,11)` and the quarter turn the
header bbox is `(-11,-1,1,11)`, the union of the four turned corners. -/
theorem SetPathHeaderBbox_corners_witness :
    (SetPathHeaderBbox lineEnv turnedItem).header =
      { x1 := -11, y1 := -1, x2 := 1, y2 := 11, state := Tk_State.TK_STATE_NULL } := by
  have h := (SetPathHeaderBbox_corners lineEnv turnedItem).1 quarterTurn rfl (by
    intro c hc
    simp only [corners, turnedItem, lineItem, List.mem_cons, List.mem_singleton,
      List.mem_nil_iff, or_false] at hc
    rcases hc with rfl | rfl | rfl | rfl <;>
      norm_num [InSentinelRange, NewEmptyPathRect, lineEnv, applyAffine, quarterTurn])
  rw [h]
  norm_num [cornersUnion, leastOfFour, greatestOfFour, turnedItem, lineItem, lineEnv, applyAffine, quarterTurn,
    cInt, Int.floor_eq_iff, Int.ceil_eq_iff]

/-! ### The example item is what `CreatePath` builds -/

theorem flag_or_and (f : Nat) :
    (f ||| kPathItemNeedNewNormalizedPath) &&& kPathItemNeedNewNormalizedPath ≠ 0 := by
  have h : (f ||| 1) &&& 1 = 1 := by
    apply Nat.eq_of_testBit_eq
    intro i
    simp only [Nat.testBit_and, Nat.testBit_or]
    cases (Nat.testBit f i) <;> simp
  simp [kPathItemNeedNewNormalizedPath, h]

theorem CreatePath_lineItem :
    CreatePath lineEnv normalCanvas freshHeader ["M 0 0 L 10 10"] = some (TCL_OK, lineItem) := by
  simp [CreatePath, PathCoords, ConfigurePath, ComputePathBbox, SetTotalBboxFromBare,
    SetPathHeaderBbox, GetSubpathMaxNumSegments, segLoopBody, lineEnv, lineItem, normalCanvas,
    freshHeader, TCL_OK, TCL_ERROR, kPathItemNeedNewNormalizedPath, IncludePointInRect,
    NewEmptyPathRect, atomEnd]
  norm_num [cInt, Int.floor_eq_iff, Int.ceil_eq_iff]

/-! ### What `ScalePath` does to the cached boxes -/

/-- The bare bbox left by `ScalePath` is the image of the former total bbox,
scaled by `scaleX` along both axes. -/
theorem ScalePath_bareBbox (env : PathEnv) (pathPtr : PathItem)
    (originX originY scaleX scaleY : ℚ) :
    (ScalePath env pathPtr originX originY scaleX scaleY).bareBbox =
      scaledRect pathPtr.totalBbox originX originY scaleX scaleX := by
  simp [ScalePath, NormalizePathRect, scaledRect]

/-- `ScalePath` leaves the total bbox as it was. -/
theorem ScalePath_totalBbox (env : PathEnv) (pathPtr : PathItem)
    (originX originY scaleX scaleY : ℚ) :
    (ScalePath env pathPtr originX originY scaleX scaleY).totalBbox = pathPtr.totalBbox := by
  simp [ScalePath]

/-- `TranslatePath` keeps the total bbox around the bare bbox. -/
theorem TranslatePath_preserves_contains (env : PathEnv) (pathPtr : PathItem)
    (deltaX deltaY : ℚ) (h : RectContains pathPtr.totalBbox pathPtr.bareBbox) :
    RectContains (TranslatePath env pathPtr deltaX deltaY).totalBbox
      (TranslatePath env pathPtr deltaX deltaY).bareBbox := by
  unfold RectContains at h ⊢
  simp only [TranslatePath, TranslatePathRect]
  obtain ⟨h1, h2, h3, h4⟩ := h
  refine ⟨?_, ?_, ?_, ?_⟩ <;> linarith

/-- C6, on the code: scaling the item of `M 0 0 L 10 10` about the origin by
`(2, 3)` should turn the bare bbox `(0,0,10,10)` into `(0,0,20,30)`; the bare
bbox `ScalePath` leaves is `(-2,-2,22,22)`, the total bbox scaled by 2 along
both axes, margin included. -/
theorem ScalePath_bareBbox_at_lineItem :
    (ScalePath lineEnv lineItem 0 0 2 3).bareBbox = { x1 := -2, y1 := -2, x2 := 22, y2 := 22 } ∧
    scaledRect lineItem.bareBbox 0 0 2 3 = { x1 := 0, y1 := 0, x2 := 20, y2 := 30 } ∧
    (ScalePath lineEnv lineItem 0 0 2 3).bareBbox ≠ scaledRect lineItem.bareBbox 0 0 2 3 := by
  have h1 : (ScalePath lineEnv lineItem 0 0 2 3).bareBbox
      = { x1 := -2, y1 := -2, x2 := 22, y2 := 22 } := by
    rw [ScalePath_bareBbox]
    norm_num [scaledRect, lineItem]
  have h2 : scaledRect lineItem.bareBbox 0 0 2 3 = { x1 := 0, y1 := 0, x2 := 20, y2 := 30 } := by
    norm_num [scaledRect, lineItem]
  refine ⟨h1, h2, ?_⟩
  rw [h1, h2]
  intro h
  have hx : (-2 : ℚ) = 0 := congrArg PathRect.x1 h
  norm_num at hx

/-- C7, on the code: scaling the item of `M 0 0 L 10 10` about the origin by
`(2, 3)` should turn the total bbox `(-1,-1,11,11)` into `(-2,-3,22,33)`;
`ScalePath` leaves the total bbox at `(-1,-1,11,11)`. -/
theorem ScalePath_totalBbox_at_lineItem :
    (ScalePath lineEnv lineItem 0 0 2 3).totalBbox = { x1 := -1, y1 := -1, x2 := 11, y2 := 11 } ∧
    scaledRect lineItem.totalBbox 0 0 2 3 = { x1 := -2, y1 := -3, x2 := 22, y2 := 33 } ∧
    (ScalePath lineEnv lineItem 0 0 2 3).totalBbox ≠ scaledRect lineItem.totalBbox 0 0 2 3 := by
  have h1 : (ScalePath lineEnv lineItem 0 0 2 3).totalBbox
      = { x1 := -1, y1 := -1, x2 := 11, y2 := 11 } := by
    rw [ScalePath_totalBbox]
    rfl
  have h2 : scaledRect lineItem.totalBbox 0 0 2 3
      = { x1 := -2, y1 := -3, x2 := 22, y2 := 33 } := by
    norm_num [scaledRect, lineItem]
  refine ⟨h1, h2, ?_⟩
  rw [h1, h2]
  intro h
  have hx : (-1 : ℚ) = -2 := congrArg PathRect.x1 h
  norm_num at hx

/-- C8, on the code: the total bbox of the item of `M 0 0 L 10 10` contains
its bare bbox, and after `ScalePath` about the origin by `(2, 2)` it does not:
the bare bbox is `(-2,-2,22,22)` and the total bbox `(-1,-1,11,11)`. -/
theorem ScalePath_breaks_contains_at_lineItem :
    RectContains lineItem.totalBbox lineItem.bareBbox ∧
    ¬ RectContains (ScalePath lineEnv lineItem 0 0 2 2).totalBbox
        (ScalePath lineEnv lineItem 0 0 2 2).bareBbox := by
  constructor
  · norm_num [RectContains, lineItem]
  · rw [ScalePath_totalBbox, ScalePath_bareBbox]
    norm_num [RectContains, scaledRect, lineItem]

/-- C9: `TranslatePath` shifts the bare and the total bbox by exactly
`(deltaX, deltaY)`, so that their widths and heights are unchanged, sets the
flag `kPathItemNeedNewNormalizedPath`, and leaves `pathLen` and
`maxNumSegments` unchanged. -/
theorem TranslatePath_shifts (env : PathEnv) (pathPtr : PathItem) (deltaX deltaY : ℚ) :
    (TranslatePath env pathPtr deltaX deltaY).bareBbox =
      { x1 := pathPtr.bareBbox.x1 + deltaX, y1 := pathPtr.bareBbox.y1 + deltaY
        x2 := pathPtr.bareBbox.x2 + deltaX, y2 := pathPtr.bareBbox.y2 + deltaY } ∧
    (TranslatePath env pathPtr deltaX deltaY).totalBbox =
      { x1 := pathPtr.totalBbox.x1 + deltaX, y1 := pathPtr.totalBbox.y1 + deltaY
        x2 := pathPtr.totalBbox.x2 + deltaX, y2 := pathPtr.totalBbox.y2 + deltaY } ∧
    ((TranslatePath env pathPtr deltaX deltaY).bareBbox.x2
        - (TranslatePath env pathPtr deltaX deltaY).bareBbox.x1
      = pathPtr.bareBbox.x2 - pathPtr.bareBbox.x1) ∧
    ((TranslatePath env pathPtr deltaX deltaY).bareBbox.y2
        - (TranslatePath env pathPtr deltaX deltaY).bareBbox.y1
      = pathPtr.bareBbox.y2 - pathPtr.bareBbox.y1) ∧
    ((TranslatePath env pathPtr deltaX deltaY).totalBbox.x2
        - (TranslatePath env pathPtr deltaX deltaY).totalBbox.x1
      = pathPtr.totalBbox.x2 - pathPtr.totalBbox.x1) ∧
    ((TranslatePath env pathPtr deltaX deltaY).totalBbox.y2
        - (TranslatePath env pathPtr deltaX deltaY).totalBbox.y1
      = pathPtr.totalBbox.y2 - pathPtr.totalBbox.y1) ∧
    (TranslatePath env pathPtr deltaX deltaY).flags &&& kPathItemNeedNewNormalizedPath ≠ 0 ∧
    (TranslatePath env pathPtr deltaX deltaY).pathLen = pathPtr.pathLen ∧
    (TranslatePath env pathPtr deltaX deltaY).maxNumSegments = pathPtr.maxNumSegments := by
  refine ⟨rfl, rfl, ?_, ?_, ?_, ?_, ?_, rfl, rfl⟩
  · simp only [TranslatePath, TranslatePathRect]; ring
  · simp only [TranslatePath, TranslatePathRect]; ring
  · simp only [TranslatePath, TranslatePathRect]; ring
  · simp only [TranslatePath, TranslatePathRect]; ring
  · exact flag_or_and pathPtr.flags

/-! ### The flag `kPathItemNeedNewNormalizedPath` is never cleared -/

theorem SetTotalBboxFromBare_flags (env : PathEnv) (pathPtr : PathItem) :
    (SetTotalBboxFromBare env pathPtr).flags = pathPtr.flags := rfl

theorem SetPathHeaderBbox_flags (env : PathEnv) (pathPtr : PathItem) :
    (SetPathHeaderBbox env pathPtr).flags = pathPtr.flags := rfl

theorem ComputePathBbox_flags (env : PathEnv) (canvas : TkCanvas) (pathPtr : PathItem) :
    (ComputePathBbox env canvas pathPtr).flags = pathPtr.flags := by
  unfold ComputePathBbox
  simp only []
  split_ifs <;> rfl

theorem PathCoords_flags (env : PathEnv) (canvas : TkCanvas) (pathPtr : PathItem)
    (objv : List Tcl_Obj) :
    (PathCoords env canvas pathPtr objv).2.1.flags = pathPtr.flags := by
  unfold PathCoords
  match objv with
  | [] => simp only []; split_ifs <;> rfl
  | [obj] =>
    simp only []
    split_ifs
    · exact ComputePathBbox_flags env canvas _
    · rfl
  | _ :: _ :: _ => rfl

theorem ConfigurePath_flags (env : PathEnv) (canvas : TkCanvas) (pathPtr : PathItem)
    (objv : List Tcl_Obj) :
    (ConfigurePath env canvas pathPtr objv).2.flags = pathPtr.flags := by
  unfold ConfigurePath
  simp only []
  split_ifs <;> rfl

theorem CreatePath_flags (env : PathEnv) (canvas : TkCanvas) (hdr : Tk_Item)
    (objv : List Tcl_Obj) (item : PathItem)
    (h : CreatePath env canvas hdr objv = some (TCL_OK, item)) :
    item.flags &&& kPathItemNeedNewNormalizedPath ≠ 0 := by
  unfold CreatePath at h
  match objv, h with
  | obj :: rest, h =>
    simp only [] at h
    split_ifs at h with h1 h2
    · simp [TCL_OK, TCL_ERROR] at h
    · simp only [Option.some.injEq, Prod.mk.injEq, true_and] at h
      rw [← h, ConfigurePath_flags, PathCoords_flags]
      exact flag_or_and 0
    · simp [TCL_OK, TCL_ERROR] at h

/-- In every reachable item the flag `kPathItemNeedNewNormalizedPath` is set. -/
theorem Reachable_flag (env : PathEnv) (item : PathItem) (h : Reachable env item) :
    item.flags &&& kPathItemNeedNewNormalizedPath ≠ 0 := by
  induction h with
  | create canvas hdr objv item hc => exact CreatePath_flags env canvas hdr objv item hc
  | coords canvas item objv _ ih => rw [PathCoords_flags]; exact ih
  | configure canvas item objv _ ih => rw [ConfigurePath_flags]; exact ih
  | scale item originX originY scaleX scaleY _ _ => exact flag_or_and item.flags
  | translate item deltaX deltaY _ _ => exact flag_or_and item.flags

/-- C10: in every item reachable from `CreatePath` by calls of `PathCoords`,
`ConfigurePath`, `ScalePath` and `TranslatePath` the flag
`kPathItemNeedNewNormalizedPath` is set, and `PathCoords` without argument
returns `TCL_OK`, stores `TkPathNormalize` of the current atoms as the
normalized path and hands it out as the result. -/
theorem PathCoords_get_fresh (env : PathEnv) (canvas : TkCanvas) (item : PathItem)
    (h : Reachable env item) :
    item.flags &&& kPathItemNeedNewNormalizedPath ≠ 0 ∧
    PathCoords env canvas item [] =
      (TCL_OK, { item with normPathObjPtr := some (env.TkPathNormalize item.atomPtr) },
        some (env.TkPathNormalize item.atomPtr)) := by
  have hf := Reachable_flag env item h
  refine ⟨hf, ?_⟩
  unfold PathCoords
  simp only [hf, if_true, ite_true, ne_eq, not_false_eq_true]

/-- Witness of C10: the item built by `CreatePath` for `M 0 0 L 10 10`, then
translated by `(5, 5)`, hands out the normalized path of its atoms. -/
theorem PathCoords_get_fresh_witness :
    (PathCoords lineEnv normalCanvas (TranslatePath lineEnv lineItem 5 5) []).1 = TCL_OK ∧
    (PathCoords lineEnv normalCanvas (TranslatePath lineEnv lineItem 5 5) []).2.2 = some "M L" := by
  have h := (PathCoords_get_fresh lineEnv normalCanvas (TranslatePath lineEnv lineItem 5 5)
    (Reachable.translate lineItem 5 5
      (Reachable.create normalCanvas freshHeader ["M 0 0 L 10 10"] lineItem
        CreatePath_lineItem))).2
  rw [h]
  exact ⟨rfl, rfl⟩

/-! ### The segment budget of an arc -/

/-- The cast `(int) d` of a value `d` with `n ≤ d < n + 1` and `0 ≤ n` is `n`. -/
theorem cInt_eq_of_nonneg (d : ℚ) (n : Int) (hn : 0 ≤ n) (h1 : (n : ℚ) ≤ d)
    (h2 : d < (n : ℚ) + 1) : cInt d = n := by
  have hd : (0 : ℚ) ≤ d := le_trans (by exact_mod_cast hn) h1
  unfold cInt
  rw [if_pos hd, Int.floor_eq_iff]
  exact ⟨h1, h2⟩

/-- The budget of a proper arc of radii 100 whose angular extent is a quarter
turn in radians (a number between 1.5 and 1.6) is 4. -/
theorem GetArcNumSegments_quarter_radians (env : PathEnv) (currentX currentY : ℚ)
    (radX radY angle : ℚ) (largeArcFlag sweepFlag : Int) (x y : ℚ) (c : ArcCentral)
    (hres : env.EndpointToCentralArcParameters currentX currentY x y radX radY
      (env.DEGREES_TO_RADIANS * angle) largeArcFlag sweepFlag = (ArcResult.kPathArcOK, c))
    (hrx : c.rx = 100) (hry : c.ry = 100) (hlo : 3 / 2 ≤ c.dtheta) (hhi : c.dtheta ≤ 8 / 5) :
    GetArcNumSegments env currentX currentY radX radY angle largeArcFlag sweepFlag x y = 4 := by
  unfold GetArcNumSegments
  simp only [hres, hrx, hry]
  have h1 : cInt (c.dtheta / 5.0 + 0.5) = 0 := by
    apply cInt_eq_of_nonneg _ 0 (le_refl _) <;> norm_num <;> linarith
  have h2 : cInt (0.5 * (100 + 100) * c.dtheta / 50 + 0.5) = 3 := by
    apply cInt_eq_of_nonneg _ 3 (by norm_num) <;> norm_num <;> linarith
  rw [h1, h2]
  simp

/-- C11, on the code: for the quarter circle of radius 100 from `(100, 0)` to
`(0, 100)`, a proper arc with `rx = ry = 100` and an angular extent of 90
degrees, `GetArcNumSegments` returns 4, which is less than `ceil(90/5) = 18`. -/
theorem GetArcNumSegments_at_quarter_circle :
    GetArcNumSegments arcEnv 100 0 100 100 0 0 1 0 100 = 4 ∧
    ¬ (18 ≤ GetArcNumSegments arcEnv 100 0 100 100 0 0 1 0 100) := by
  have h : GetArcNumSegments arcEnv 100 0 100 100 0 0 1 0 100 = 4 := by
    apply GetArcNumSegments_quarter_radians arcEnv 100 0 100 100 0 0 1 0 100
      { cx := 0, cy := 0, rx := 100, ry := 100, theta1 := 0, dtheta := 1.5707963267948966 }
    · norm_num [arcEnv, quarterArcConversion]
    · rfl
    · rfl
    · norm_num
    · norm_num
  rw [h]
  exact ⟨rfl, by norm_num⟩

/-- C17: `GetArcNumSegments` returns 0 when the conversion reports
`kPathArcSkip`, 2 when it reports `kPathArcLine`, and otherwise
`max(4, ntheta, nlength)`, which is at least 4 whatever the radii and the
angular extent are. -/
theorem GetArcNumSegments_classifies (env : PathEnv) (currentX currentY : ℚ)
    (radX radY angle : ℚ) (largeArcFlag sweepFlag : Int) (x y : ℚ) :
    ((env.EndpointToCentralArcParameters currentX currentY x y radX radY
        (env.DEGREES_TO_RADIANS * angle) largeArcFlag sweepFlag).1 = ArcResult.kPathArcSkip →
      GetArcNumSegments env currentX currentY radX radY angle largeArcFlag sweepFlag x y = 0) ∧
    ((env.EndpointToCentralArcParameters currentX currentY x y radX radY
        (env.DEGREES_TO_RADIANS * angle) largeArcFlag sweepFlag).1 = ArcResult.kPathArcLine →
      GetArcNumSegments env currentX currentY radX radY angle largeArcFlag sweepFlag x y = 2) ∧
    ((env.EndpointToCentralArcParameters currentX currentY x y radX radY
        (env.DEGREES_TO_RADIANS * angle) largeArcFlag sweepFlag).1 ≠ ArcResult.kPathArcLine →
     (env.EndpointToCentralArcParameters currentX currentY x y radX radY
        (env.DEGREES_TO_RADIANS * angle) largeArcFlag sweepFlag).1 ≠ ArcResult.kPathArcSkip →
      GetArcNumSegments env currentX currentY radX radY angle largeArcFlag sweepFlag x y =
        max 4 (max
          (cInt ((env.EndpointToCentralArcParameters currentX currentY x y radX radY
            (env.DEGREES_TO_RADIANS * angle) largeArcFlag sweepFlag).2.dtheta / 5.0 + 0.5))
          (cInt (0.5 *
            ((env.EndpointToCentralArcParameters currentX currentY x y radX radY
                (env.DEGREES_TO_RADIANS * angle) largeArcFlag sweepFlag).2.rx +
              (env.EndpointToCentralArcParameters currentX currentY x y radX radY
                (env.DEGREES_TO_RADIANS * angle) largeArcFlag sweepFlag).2.ry) *
            (env.EndpointToCentralArcParameters currentX currentY x y radX radY
              (env.DEGREES_TO_RADIANS * angle) largeArcFlag sweepFlag).2.dtheta / 50 + 0.5))) ∧
      4 ≤ GetArcNumSegments env currentX currentY radX radY angle largeArcFlag sweepFlag x y) := by
  refine ⟨?_, ?_, ?_⟩
  · intro h
    unfold GetArcNumSegments
    simp [h]
  · intro h
    unfold GetArcNumSegments
    simp [h]
  · intro h1 h2
    unfold GetArcNumSegments
    simp only [if_neg h1, if_neg h2]
    exact ⟨trivial, le_max_left _ _⟩

/-- Witness of C17: with the example conversion, an arc back to the current
point counts 0 segments, an arc of radius 0 counts 2, and the quarter circle
of radius 100, a proper arc, counts at least 4. -/
theorem GetArcNumSegments_classifies_witness :
    GetArcNumSegments arcEnv 100 0 100 100 0 0 1 100 0 = 0 ∧
    GetArcNumSegments arcEnv 100 0 0 100 0 0 1 0 100 = 2 ∧
    4 ≤ GetArcNumSegments arcEnv 100 0 100 100 0 0 1 0 100 :=
  ⟨(GetArcNumSegments_classifies arcEnv 100 0 100 100 0 0 1 100 0).1
      (by norm_num [arcEnv, quarterArcConversion]),
    (GetArcNumSegments_classifies arcEnv 100 0 0 100 0 0 1 0 100).2.1
      (by norm_num [arcEnv, quarterArcConversion]),
    ((GetArcNumSegments_classifies arcEnv 100 0 100 100 0 0 1 0 100).2.2
      (by norm_num [arcEnv, quarterArcConversion]; decide)
      (by norm_num [arcEnv, quarterArcConversion]; decide)).2⟩

/-! ### The loop of `GetSubpathMaxNumSegments` -/

/-- The loop body is the switch followed by the update of the maximum. -/
theorem segLoopBody_eq (env : PathEnv) (s : SegLoop) (a : PathAtom) :
    segLoopBody env s a =
      { segSwitch env s a with
        maxNumSegments := max s.maxNumSegments (segSwitch env s a).num } := by
  cases a <;> simp only [segLoopBody, segSwitch, atomSegments, pointAfter] <;>
    split_ifs with h <;> simp only [SegLoop.mk.injEq, true_and, and_true] <;> omega

theorem GetArcNumSegments_nonneg (env : PathEnv) (currentX currentY : ℚ)
    (radX radY angle : ℚ) (largeArcFlag sweepFlag : Int) (x y : ℚ) :
    0 ≤ GetArcNumSegments env currentX currentY radX radY angle largeArcFlag sweepFlag x y := by
  unfold GetArcNumSegments
  simp only []
  split_ifs
  · norm_num
  · norm_num
  · exact le_trans (by norm_num) (le_max_left _ _)

theorem atomSegments_nonneg (env : PathEnv) (hQ : 0 ≤ env.kPathNumSegmentsQuadBezier)
    (hC : 0 ≤ env.kPathNumSegmentsCurveTo) (cur : ℚ × ℚ) (a : PathAtom) :
    0 ≤ atomSegments env cur a := by
  cases a <;> simp only [atomSegments] <;>
    first
      | exact GetArcNumSegments_nonneg _ _ _ _ _ _ _ _ _ _
      | assumption
      | norm_num

theorem runSegments_nonneg (env : PathEnv) (hQ : 0 ≤ env.kPathNumSegmentsQuadBezier)
    (hC : 0 ≤ env.kPathNumSegmentsCurveTo) (start : ℚ × ℚ) (run : List PathAtom) :
    ∀ cur : ℚ × ℚ, 0 ≤ runSegments env start cur run := by
  induction run with
  | nil => intro cur; simp [runSegments]
  | cons a rest ih =>
    intro cur
    simp only [runSegments]
    exact add_nonneg (atomSegments_nonneg env hQ hC cur a) (ih _)

/-- The maximum the loop ends with, from any state of the local variables:
the greatest of the maximum so far, the count of the run that completes the
subpath under way, and the counts of the subpaths that follow. -/
theorem segLoop_max (env : PathEnv) (hQ : 0 ≤ env.kPathNumSegmentsQuadBezier)
    (hC : 0 ≤ env.kPathNumSegmentsCurveTo) (atoms : List PathAtom) :
    ∀ s : SegLoop, s.num ≤ s.maxNumSegments →
      (atoms.foldl (segLoopBody env) s).maxNumSegments =
        ((splitAtMoves atoms).2.map (subpathSegments env)).foldl max
          (max s.maxNumSegments
            (s.num + runSegments env (s.startX, s.startY) (s.currentX, s.currentY)
              (splitAtMoves atoms).1)) := by
  induction atoms with
  | nil =>
    intro s hs
    simp only [List.foldl_nil, splitAtMoves, List.map_nil, runSegments]
    omega
  | cons a rest ih =>
    intro s hs
    rw [List.foldl_cons, ih (segLoopBody env s a) (by rw [segLoopBody_eq]; exact le_max_right _ _)]
    rw [segLoopBody_eq]
    cases a with
    | M x y =>
      have hr := runSegments_nonneg env hQ hC (x, y) (splitAtMoves rest).1 (x, y)
      simp only [splitAtMoves, isMoveTo, if_true, segSwitch, List.map_cons, List.foldl_cons,
        subpathSegments, runSegments]
      congr 1
      omega
    | L x y =>
      have hr := runSegments_nonneg env hQ hC (s.startX, s.startY) (splitAtMoves rest).1
        (pointAfter (s.startX, s.startY) (PathAtom.L x y))
      have ha := atomSegments_nonneg env hQ hC (s.currentX, s.currentY) (PathAtom.L x y)
      simp only [splitAtMoves, isMoveTo, segSwitch, runSegments, Bool.false_eq_true, if_false,
        Prod.mk.eta]
      congr 1
      omega
    | A radX radY angle largeArcFlag sweepFlag x y =>
      have hr := runSegments_nonneg env hQ hC (s.startX, s.startY) (splitAtMoves rest).1
        (pointAfter (s.startX, s.startY) (PathAtom.A radX radY angle largeArcFlag sweepFlag x y))
      have ha := atomSegments_nonneg env hQ hC (s.currentX, s.currentY)
        (PathAtom.A radX radY angle largeArcFlag sweepFlag x y)
      simp only [splitAtMoves, isMoveTo, segSwitch, runSegments, Bool.false_eq_true, if_false,
        Prod.mk.eta]
      congr 1
      omega
    | Q ctrlX ctrlY anchorX anchorY =>
      have hr := runSegments_nonneg env hQ hC (s.startX, s.startY) (splitAtMoves rest).1
        (pointAfter (s.startX, s.startY) (PathAtom.Q ctrlX ctrlY anchorX anchorY))
      have ha := atomSegments_nonneg env hQ hC (s.currentX, s.currentY)
        (PathAtom.Q ctrlX ctrlY anchorX anchorY)
      simp only [splitAtMoves, isMoveTo, segSwitch, runSegments, Bool.false_eq_true, if_false,
        Prod.mk.eta]
      congr 1
      omega
    | C ctrlX1 ctrlY1 ctrlX2 ctrlY2 anchorX anchorY =>
      have hr := runSegments_nonneg env hQ hC (s.startX, s.startY) (splitAtMoves rest).1
        (pointAfter (s.startX, s.startY) (PathAtom.C ctrlX1 ctrlY1 ctrlX2 ctrlY2 anchorX anchorY))
      have ha := atomSegments_nonneg env hQ hC (s.currentX, s.currentY)
        (PathAtom.C ctrlX1 ctrlY1 ctrlX2 ctrlY2 anchorX anchorY)
      simp only [splitAtMoves, isMoveTo, segSwitch, runSegments, Bool.false_eq_true, if_false,
        Prod.mk.eta]
      congr 1
      omega
    | Z x y =>
      have hr := runSegments_nonneg env hQ hC (s.startX, s.startY) (splitAtMoves rest).1
        (pointAfter (s.startX, s.startY) (PathAtom.Z x y))
      have ha := atomSegments_nonneg env hQ hC (s.currentX, s.currentY) (PathAtom.Z x y)
      simp only [splitAtMoves, isMoveTo, segSwitch, runSegments, Bool.false_eq_true, if_false,
        Prod.mk.eta]
      congr 1
      omega

/-- Raising the maximum the loop starts with raises the maximum it ends with
and changes nothing else. -/
theorem segLoop_raise_max (env : PathEnv) (atoms : List PathAtom) :
    ∀ (s : SegLoop) (m : Int),
      atoms.foldl (segLoopBody env) { s with maxNumSegments := max m s.maxNumSegments } =
        { atoms.foldl (segLoopBody env) s with
          maxNumSegments := max m (atoms.foldl (segLoopBody env) s).maxNumSegments } := by
  induction atoms with
  | nil => intro s m; rfl
  | cons a rest ih =>
    intro s m
    have hstep : segLoopBody env { s with maxNumSegments := max m s.maxNumSegments } a =
        { segLoopBody env s a with
          maxNumSegments := max m (segLoopBody env s a).maxNumSegments } := by
      rw [segLoopBody_eq, segLoopBody_eq]
      cases a <;> simp only [segSwitch, SegLoop.mk.injEq, true_and, and_true] <;> omega
    rw [List.foldl_cons, List.foldl_cons, hstep, ih]

/-- C12: `GetSubpathMaxNumSegments` returns the maximum over the subpaths, not
the sum.  With Bezier constants that are not negative, the result for an atom
list that starts with a MoveTo is the maximum over its subpaths of 1 plus the
sum of the contributions of the atoms of the subpath; and for every list `A`
and every list `B` that starts with a MoveTo the result for `A ++ B` is the
maximum of the results for `A` and for `B`. -/
theorem GetSubpathMaxNumSegments_max_over_subpaths (env : PathEnv) :
    (0 ≤ env.kPathNumSegmentsQuadBezier → 0 ≤ env.kPathNumSegmentsCurveTo →
      ∀ (x y : ℚ) (rest : List PathAtom),
        GetSubpathMaxNumSegments env (PathAtom.M x y :: rest) =
          ((subpaths (PathAtom.M x y :: rest)).map (subpathSegments env)).foldl max 0) ∧
    (∀ (A : List PathAtom) (x y : ℚ) (B : List PathAtom),
      GetSubpathMaxNumSegments env (A ++ PathAtom.M x y :: B) =
        max (GetSubpathMaxNumSegments env A)
          (GetSubpathMaxNumSegments env (PathAtom.M x y :: B))) := by
  constructor
  · intro hQ hC x y rest
    unfold GetSubpathMaxNumSegments subpaths
    rw [segLoop_max env hQ hC _ _ (le_refl _)]
    simp [splitAtMoves, isMoveTo, runSegments]
  · intro A x y B
    unfold GetSubpathMaxNumSegments
    rw [List.foldl_append, List.foldl_cons, List.foldl_cons]
    generalize List.foldl (segLoopBody env)
      { num := 0, maxNumSegments := 0, currentX := 0.0, currentY := 0.0,
        startX := 0.0, startY := 0.0 } A = sA
    have h : segLoopBody env sA (PathAtom.M x y) =
        { segLoopBody env
            { num := 0, maxNumSegments := 0, currentX := 0.0, currentY := 0.0,
              startX := 0.0, startY := 0.0 } (PathAtom.M x y) with
          maxNumSegments := max sA.maxNumSegments
            (segLoopBody env
              { num := 0, maxNumSegments := 0, currentX := 0.0, currentY := 0.0,
                startX := 0.0, startY := 0.0 } (PathAtom.M x y)).maxNumSegments } := by
      rw [segLoopBody_eq, segLoopBody_eq]
      simp only [segSwitch, SegLoop.mk.injEq, true_and, and_true]
      omega
    rw [h, segLoop_raise_max]

/-- Witness of C12: a line of one segment followed by a subpath of two
segments counts `max (1 + 1) (1 + 2) = 3`, not `2 + 3`. -/
theorem GetSubpathMaxNumSegments_max_over_subpaths_witness :
    GetSubpathMaxNumSegments lineEnv
      [PathAtom.M 0 0, PathAtom.L 10 10, PathAtom.M 5 5, PathAtom.L 6 6, PathAtom.L 7 7] = 3 := by
  have h := (GetSubpathMaxNumSegments_max_over_subpaths lineEnv).1
    (by norm_num [lineEnv]) (by norm_num [lineEnv]) 0 0
    [PathAtom.L 10 10, PathAtom.M 5 5, PathAtom.L 6 6, PathAtom.L 7 7]
  rw [h]
  simp [subpaths, splitAtMoves, isMoveTo, subpathSegments, runSegments, atomSegments]

/-! ### Bezier curves in the segment budget -/

/-- The loop body does not read the control points. -/
theorem segLoopBody_sameAnchors (env : PathEnv) (s : SegLoop) (a b : PathAtom)
    (h : SameAnchors a b) : segLoopBody env s a = segLoopBody env s b := by
  cases h <;> rfl

theorem segLoop_sameAnchors (env : PathEnv) (atoms others : List PathAtom)
    (h : List.Forall₂ SameAnchors atoms others) :
    ∀ s : SegLoop, atoms.foldl (segLoopBody env) s = others.foldl (segLoopBody env) s := by
  induction h with
  | nil => intro s; rfl
  | cons hab _ ih =>
    intro s
    rw [List.foldl_cons, List.foldl_cons, segLoopBody_sameAnchors env s _ _ hab, ih]

/-- C13: the result of `GetSubpathMaxNumSegments` does not change when the
control points of the Bezier atoms are replaced by other values and the
anchors are kept; and, the constant not being negative, a MoveTo followed by
one CubicBezier yields `1 + kPathNumSegmentsCurveTo`. -/
theorem GetSubpathMaxNumSegments_control_points (env : PathEnv) :
    (∀ atoms others : List PathAtom, List.Forall₂ SameAnchors atoms others →
      GetSubpathMaxNumSegments env atoms = GetSubpathMaxNumSegments env others) ∧
    (0 ≤ env.kPathNumSegmentsCurveTo →
      ∀ x y ctrlX1 ctrlY1 ctrlX2 ctrlY2 anchorX anchorY : ℚ,
        GetSubpathMaxNumSegments env
          [PathAtom.M x y, PathAtom.C ctrlX1 ctrlY1 ctrlX2 ctrlY2 anchorX anchorY] =
          1 + env.kPathNumSegmentsCurveTo) := by
  constructor
  · intro atoms others h
    unfold GetSubpathMaxNumSegments
    rw [segLoop_sameAnchors env atoms others h]
  · intro hC x y ctrlX1 ctrlY1 ctrlX2 ctrlY2 anchorX anchorY
    unfold GetSubpathMaxNumSegments
    simp only [List.foldl_cons, List.foldl_nil, segLoopBody_eq, segSwitch, atomSegments]
    omega

/-- Witness of C13: with the constant 18, a cubic curve counts 19 segments
whether its control points are `(1,1)`, `(2,2)` or `(9,-9)`, `(-8,8)`. -/
theorem GetSubpathMaxNumSegments_control_points_witness :
    GetSubpathMaxNumSegments lineEnv [PathAtom.M 0 0, PathAtom.C 1 1 2 2 3 3] =
      GetSubpathMaxNumSegments lineEnv [PathAtom.M 0 0, PathAtom.C 9 (-9) (-8) 8 3 3] ∧
    GetSubpathMaxNumSegments lineEnv [PathAtom.M 0 0, PathAtom.C 1 1 2 2 3 3] = 1 + 18 :=
  ⟨(GetSubpathMaxNumSegments_control_points lineEnv).1 _ _
      (List.Forall₂.cons (SameAnchors.same _)
        (List.Forall₂.cons (SameAnchors.cubic 1 1 2 2 9 (-9) (-8) 8 3 3) List.Forall₂.nil)),
    (GetSubpathMaxNumSegments_control_points lineEnv).2 (by norm_num [lineEnv]) 0 0 1 1 2 2 3 3⟩

/-! ### `PathCoords` with a new path -/

/-- C14: when the parser reports an error, or `PathCoords` gets two or more
arguments, `PathCoords` returns `TCL_ERROR` and the item it returns is the
item it was given, field by field; more generally, for every result code of
the parser other than `TCL_OK`, `PathCoords` returns that code and leaves the
item as it was. -/
theorem PathCoords_failure_keeps_item (env : PathEnv) (canvas : TkCanvas) (item : PathItem) :
    (∀ obj : Tcl_Obj, (env.TkPathParseToAtoms obj).1 = TCL_ERROR →
      (PathCoords env canvas item [obj]).1 = TCL_ERROR ∧
      (PathCoords env canvas item [obj]).2.1 = item) ∧
    (∀ obj : Tcl_Obj, (env.TkPathParseToAtoms obj).1 ≠ TCL_OK →
      (PathCoords env canvas item [obj]).1 = (env.TkPathParseToAtoms obj).1 ∧
      (PathCoords env canvas item [obj]).2.1 = item) ∧
    (∀ objv : List Tcl_Obj, 2 ≤ objv.length →
      (PathCoords env canvas item objv).1 = TCL_ERROR ∧
      (PathCoords env canvas item objv).2.1 = item) := by
  have hne : ∀ obj : Tcl_Obj, (env.TkPathParseToAtoms obj).1 ≠ TCL_OK →
      (PathCoords env canvas item [obj]).1 = (env.TkPathParseToAtoms obj).1 ∧
      (PathCoords env canvas item [obj]).2.1 = item := by
    intro obj h
    unfold PathCoords
    simp only [if_neg h]
    exact ⟨trivial, trivial⟩
  refine ⟨?_, hne, ?_⟩
  · intro obj h
    have h2 := hne obj (by rw [h]; decide)
    rw [h] at h2
    exact h2
  · intro objv h
    match objv, h with
    | _ :: _ :: _, _ => exact ⟨rfl, rfl⟩

/-- Witness of C14: the example parser rejects `L 1`, and the item is
returned as it was, with `TCL_ERROR`; so it is with two arguments. -/
theorem PathCoords_failure_keeps_item_witness :
    ((PathCoords lineEnv normalCanvas lineItem ["L 1"]).1 = TCL_ERROR ∧
      (PathCoords lineEnv normalCanvas lineItem ["L 1"]).2.1 = lineItem) ∧
    ((PathCoords lineEnv normalCanvas lineItem ["M 0 0", "L 10 10"]).1 = TCL_ERROR ∧
      (PathCoords lineEnv normalCanvas lineItem ["M 0 0", "L 10 10"]).2.1 = lineItem) :=
  ⟨(PathCoords_failure_keeps_item lineEnv normalCanvas lineItem).1 "L 1"
      (by simp [lineEnv]),
    (PathCoords_failure_keeps_item lineEnv normalCanvas lineItem).2.2 ["M 0 0", "L 10 10"]
      (by simp)⟩

/-- C15, as stated, fails: the parser accepts `M 5 5` with length 3, the item
gets the atom list `[M 5 5]`, and its bare bbox stays `(0,0,10,10)`, the bbox
of the former path, whereas `GetGenericBarePathBbox` of the new atoms is
`(5,5,5,5)`. -/
theorem PathCoords_short_path_keeps_bareBbox :
    (pointEnv.TkPathParseToAtoms "M 5 5").1 = TCL_OK ∧
    (PathCoords pointEnv normalCanvas lineItem ["M 5 5"]).2.1.atomPtr = [PathAtom.M 5 5] ∧
    (PathCoords pointEnv normalCanvas lineItem ["M 5 5"]).2.1.bareBbox =
      { x1 := 0, y1 := 0, x2 := 10, y2 := 10 } ∧
    pointEnv.GetGenericBarePathBbox [PathAtom.M 5 5] = { x1 := 5, y1 := 5, x2 := 5, y2 := 5 } ∧
    (PathCoords pointEnv normalCanvas lineItem ["M 5 5"]).2.1.bareBbox ≠
      pointEnv.GetGenericBarePathBbox [PathAtom.M 5 5] := by
  have h1 : (PathCoords pointEnv normalCanvas lineItem ["M 5 5"]).2.1.bareBbox =
      { x1 := 0, y1 := 0, x2 := 10, y2 := 10 } := by
    simp [PathCoords, pointEnv, ComputePathBbox, TCL_OK, lineItem]
  have h2 : pointEnv.GetGenericBarePathBbox [PathAtom.M 5 5] =
      { x1 := 5, y1 := 5, x2 := 5, y2 := 5 } := by
    norm_num [pointEnv, lineEnv, IncludePointInRect, NewEmptyPathRect, atomEnd]
  refine ⟨by simp [pointEnv], ?_, h1, h2, ?_⟩
  · simp [PathCoords, pointEnv, ComputePathBbox, TCL_OK]
  · rw [h1, h2]
    intro h
    have hx : (0 : ℚ) = 5 := congrArg PathRect.x1 h
    norm_num at hx

/-- C15, amended: when `PathCoords` gets one argument and the parser succeeds
with atom list `A` and length `n`, `PathCoords` returns `TCL_OK`, the item
holds the atoms `A` and `pathLen = n`, and `maxNumSegments` is
`GetSubpathMaxNumSegments A`; if moreover `n ≥ 4` and the state that counts
for the item is not hidden, the bare bbox is `GetGenericBarePathBbox A` and
the total bbox is the `SetTotalBboxFromBare` expansion of that bare bbox. -/
theorem PathCoords_success_caches (env : PathEnv) (canvas : TkCanvas) (item : PathItem)
    (obj : Tcl_Obj) (hok : (env.TkPathParseToAtoms obj).1 = TCL_OK) :
    (PathCoords env canvas item [obj]).1 = TCL_OK ∧
    (PathCoords env canvas item [obj]).2.1.atomPtr = (env.TkPathParseToAtoms obj).2.1 ∧
    (PathCoords env canvas item [obj]).2.1.pathLen = (env.TkPathParseToAtoms obj).2.2 ∧
    (PathCoords env canvas item [obj]).2.1.maxNumSegments =
      GetSubpathMaxNumSegments env (env.TkPathParseToAtoms obj).2.1 ∧
    (4 ≤ (env.TkPathParseToAtoms obj).2.2 →
      effectiveState canvas item ≠ Tk_State.TK_STATE_HIDDEN →
      (PathCoords env canvas item [obj]).2.1.bareBbox =
        env.GetGenericBarePathBbox (env.TkPathParseToAtoms obj).2.1 ∧
      (PathCoords env canvas item [obj]).2.1.totalBbox =
        (SetTotalBboxFromBare env
          { item with
            bareBbox := env.GetGenericBarePathBbox (env.TkPathParseToAtoms obj).2.1 }).totalBbox)
    := by
  unfold PathCoords
  simp only [if_pos hok]
  refine ⟨hok, ?_, ?_, trivial, ?_⟩
  · unfold ComputePathBbox
    simp only []
    split_ifs <;> rfl
  · unfold ComputePathBbox
    simp only []
    split_ifs <;> rfl
  · intro hn hs
    unfold effectiveState at hs
    unfold ComputePathBbox
    have hlen : ¬ (env.TkPathParseToAtoms obj).2.2 < 4 := not_lt.mpr hn
    simp only [hlen, hs, or_false, false_or, reduceCtorEq, if_false]
    exact ⟨rfl, rfl⟩

/-- Witness of C15, amended: setting the path `M 0 0 L 10 10`, of length 6,
on the item moved by `(5, 5)` brings the bare bbox back to `(0,0,10,10)`. -/
theorem PathCoords_success_caches_witness :
    (PathCoords lineEnv normalCanvas (TranslatePath lineEnv lineItem 5 5)
      ["M 0 0 L 10 10"]).2.1.bareBbox = { x1 := 0, y1 := 0, x2 := 10, y2 := 10 } := by
  have h := (PathCoords_success_caches lineEnv normalCanvas (TranslatePath lineEnv lineItem 5 5)
    "M 0 0 L 10 10" (by simp [lineEnv])).2.2.2.2
    (by norm_num [lineEnv]) (by simp [effectiveState, TranslatePath, lineItem, normalCanvas])
  rw [h.1]
  norm_num [lineEnv, IncludePointInRect, NewEmptyPathRect, atomEnd]

/-- C16: when the item has no path object, or `pathLen < 4`, or the state
that counts for it is hidden, `ComputePathBbox` sets the four sides of the
header bbox to -1, a box of zero area. -/
theorem ComputePathBbox_too_little (env : PathEnv) (canvas : TkCanvas) (item : PathItem)
    (h : item.pathObjPtr = none ∨ item.pathLen < 4 ∨
      effectiveState canvas item = Tk_State.TK_STATE_HIDDEN) :
    (ComputePathBbox env canvas item).header.x1 = -1 ∧
    (ComputePathBbox env canvas item).header.x2 = -1 ∧
    (ComputePathBbox env canvas item).header.y1 = -1 ∧
    (ComputePathBbox env canvas item).header.y2 = -1 := by
  unfold effectiveState at h
  unfold ComputePathBbox
  rw [if_pos h]
  exact ⟨rfl, rfl, rfl, rfl⟩

/-- Witness of C16: the item `lineItem` with its path length lowered to 3
gets the header bbox `(-1,-1,-1,-1)`. -/
theorem ComputePathBbox_too_little_witness :
    (ComputePathBbox lineEnv normalCanvas { lineItem with pathLen := 3 }).header.x1 = -1 ∧
    (ComputePathBbox lineEnv normalCanvas { lineItem with pathLen := 3 }).header.x2 = -1 ∧
    (ComputePathBbox lineEnv normalCanvas { lineItem with pathLen := 3 }).header.y1 = -1 ∧
    (ComputePathBbox lineEnv normalCanvas { lineItem with pathLen := 3 }).header.y2 = -1 :=
  ComputePathBbox_too_little lineEnv normalCanvas { lineItem with pathLen := 3 }
    (Or.inr (Or.inl (by decide)))

/-! ### Drawing with cairo -/

/-- C18: over the reals, the cubic Bezier curve `TkPathQuadBezier` hands to
`cairo_curve_to`, with control points `P0`, `P0 + (C - P0)*2/3`,
`C + (P - C)/3`, `P`, takes the same value as the quadratic Bezier curve with
control points `P0`, `C`, `P` at every parameter `t`. -/
theorem TkPathQuadBezier_exact (cx cy ctrlX ctrlY x y t : ℝ) :
    TkPathQuadBezier cx cy ctrlX ctrlY x y =
      { x1 := cx + (ctrlX - cx) * 2 / 3, y1 := cy + (ctrlY - cy) * 2 / 3,
        x2 := ctrlX + (x - ctrlX) / 3, y2 := ctrlY + (y - ctrlY) / 3, x3 := x, y3 := y } ∧
    cubicBezierAt cx (TkPathQuadBezier cx cy ctrlX ctrlY x y).x1
        (TkPathQuadBezier cx cy ctrlX ctrlY x y).x2
        (TkPathQuadBezier cx cy ctrlX ctrlY x y).x3 t = quadBezierAt cx ctrlX x t ∧
    cubicBezierAt cy (TkPathQuadBezier cx cy ctrlX ctrlY x y).y1
        (TkPathQuadBezier cx cy ctrlX ctrlY x y).y2
        (TkPathQuadBezier cx cy ctrlX ctrlY x y).y3 t = quadBezierAt cy ctrlY y t := by
  refine ⟨rfl, ?_, ?_⟩
  · simp only [TkPathQuadBezier, cubicBezierAt, quadBezierAt]
    ring
  · simp only [TkPathQuadBezier, cubicBezierAt, quadBezierAt]
    ring

theorem mem_countFrom (v : Int) (count : Nat) :
    ∀ lo : Int, v ∈ countFrom lo count ↔ lo ≤ v ∧ v < lo + count := by
  induction count with
  | zero => intro lo; simp only [countFrom, List.not_mem_nil, false_iff]; omega
  | succ n ih =>
    intro lo
    simp only [countFrom, List.mem_cons, ih]
    omega

theorem mem_forLoopValues (v lo hi : Int) : v ∈ forLoopValues lo hi ↔ lo ≤ v ∧ v < hi := by
  unfold forLoopValues
  rw [mem_countFrom]
  omega

/-- In the inner loop the row is `i`, the column runs over the loop values
and `dst` has advanced by 4 for each column passed. -/
theorem mem_eraseRowLoop (i : Int) (p : Int × Int × Int) (count : Nat) :
    ∀ lo dst : Int, p ∈ eraseRowLoop i dst (countFrom lo count) →
      p.2.1 = i ∧ lo ≤ p.1 ∧ p.1 < lo + count ∧ p.2.2 = dst + 4 * (p.1 - lo) := by
  induction count with
  | zero => intro lo dst h; simp [countFrom, eraseRowLoop] at h
  | succ n ih =>
    intro lo dst h
    simp only [countFrom, eraseRowLoop, List.mem_cons] at h
    rcases h with h | h
    · subst h
      refine ⟨rfl, ?_, ?_, ?_⟩ <;> simp only [] <;> omega
    · obtain ⟨h1, h2, h3, h4⟩ := ih (lo + 1) (dst + 4) h
      refine ⟨h1, ?_, ?_, ?_⟩ <;> omega

/-- C19: on a surface whose stride is at least `4 * width`, every pixel
`TkPathSurfaceErase` clears has its column in `[0, width)` and its row in
`[0, height)`, its first byte is at offset `row * stride + 4 * column`, and
each of its four bytes is at an offset in `[0, height * stride)`; the bytes at
all other offsets are left as they were.  The integers of the embedding are
unbounded, so that nothing is assumed of the size of the arguments. -/
theorem TkPathSurfaceErase_in_bounds (record : PathSurfaceCairoRecord)
    (dx dy dwidth dheight : ℚ) (hstride : 4 * record.width ≤ record.stride) :
    (∀ p ∈ TkPathSurfaceErasePixels record dx dy dwidth dheight,
      0 ≤ p.1 ∧ p.1 < record.width ∧ 0 ≤ p.2.1 ∧ p.2.1 < record.height ∧
      p.2.2 = p.2.1 * record.stride + 4 * p.1 ∧
      ∀ k : Int, 0 ≤ k → k < 4 →
        0 ≤ p.2.2 + k ∧ p.2.2 + k < record.height * record.stride) ∧
    (∀ offset : Int, ¬ (0 ≤ offset ∧ offset < record.height * record.stride) →
      (TkPathSurfaceErase record dx dy dwidth dheight).data offset = record.data offset) := by
  have hpix : ∀ p ∈ TkPathSurfaceErasePixels record dx dy dwidth dheight,
      0 ≤ p.1 ∧ p.1 < record.width ∧ 0 ≤ p.2.1 ∧ p.2.1 < record.height ∧
      p.2.2 = p.2.1 * record.stride + 4 * p.1 ∧
      ∀ k : Int, 0 ≤ k → k < 4 →
        0 ≤ p.2.2 + k ∧ p.2.2 + k < record.height * record.stride := by
    intro p hp
    unfold TkPathSurfaceErasePixels at hp
    simp only [List.mem_flatMap] at hp
    obtain ⟨i, hi, hrow⟩ := hp
    rw [mem_forLoopValues] at hi
    unfold forLoopValues at hrow
    obtain ⟨h1, h2, h3, h4⟩ := mem_eraseRowLoop i p _ _ _ hrow
    have hj0 : 0 ≤ p.1 := le_trans (le_max_left _ _) h2
    have hjW : p.1 < record.width := by omega
    have hi0 : 0 ≤ p.2.1 := by rw [h1]; exact le_trans (le_max_left _ _) hi.1
    have hiH : p.2.1 < record.height := by rw [h1]; omega
    have hdst : p.2.2 = p.2.1 * record.stride + 4 * p.1 := by rw [h4, h1]; ring
    refine ⟨hj0, hjW, hi0, hiH, hdst, ?_⟩
    intro k hk0 hk4
    have hs0 : 0 ≤ record.stride := by omega
    have hmul0 : 0 ≤ p.2.1 * record.stride := mul_nonneg hi0 hs0
    have hmul1 : p.2.1 * record.stride ≤ (record.height - 1) * record.stride :=
      mul_le_mul_of_nonneg_right (by omega) hs0
    have hexp : (record.height - 1) * record.stride
        = record.height * record.stride - record.stride := by ring
    constructor <;> omega
  refine ⟨hpix, ?_⟩
  intro offset hout
  unfold TkPathSurfaceErase
  simp only []
  rw [if_neg]
  simp only [List.any_eq_true, decide_eq_true_eq, not_exists, not_and]
  intro p hp hlo hhi
  obtain ⟨-, -, -, -, -, hk⟩ := hpix p hp
  have := hk (offset - p.2.2) (by omega) (by omega)
  apply hout
  constructor <;> omega

/-- Witness of C19: erasing the rectangle at `(1, 0)` of size 5 by 5 on the
surface of 3 by 2 pixels with stride 16 clears the pixels of the columns 1
and 2 of both rows, at the offsets 4, 8, 20 and 24, all within
`[0, 2 * 16)`. -/
theorem TkPathSurfaceErase_in_bounds_witness :
    TkPathSurfaceErasePixels smallSurface 1 0 5 5 =
      [(1, 0, 4), (2, 0, 8), (1, 1, 20), (2, 1, 24)] ∧
    ∀ p ∈ TkPathSurfaceErasePixels smallSurface 1 0 5 5,
      0 ≤ p.1 ∧ p.1 < smallSurface.width ∧ 0 ≤ p.2.1 ∧ p.2.1 < smallSurface.height ∧
      p.2.2 = p.2.1 * smallSurface.stride + 4 * p.1 ∧
      ∀ k : Int, 0 ≤ k → k < 4 →
        0 ≤ p.2.2 + k ∧ p.2.2 + k < smallSurface.height * smallSurface.stride := by
  refine ⟨?_, (TkPathSurfaceErase_in_bounds smallSurface 1 0 5 5 (by decide)).1⟩
  have h1 : cInt (1 + 0.5) = 1 := by norm_num [cInt, Int.floor_eq_iff]
  have h0 : cInt (0 + 0.5) = 0 := by norm_num [cInt, Int.floor_eq_iff]
  have h5 : cInt (5 + 0.5) = 5 := by norm_num [cInt, Int.floor_eq_iff]
  simp only [TkPathSurfaceErasePixels, smallSurface, h1, h0, h5]
  decide

/-! ### The stride of a memory surface -/

/-- Clearing the four low bits of a natural number rounds it down to a
multiple of 16. -/
theorem ldiff_fifteen (m : Nat) : Nat.ldiff m 15 = 16 * (m / 16) := by
  apply Nat.eq_of_testBit_eq
  intro k
  have h15 : (15 : Nat) = 2 ^ 4 - 1 := by norm_num
  have h16 : (16 : Nat) = 2 ^ 4 := by norm_num
  rw [Nat.testBit_ldiff, h15, Nat.testBit_two_pow_sub_one, h16, Nat.testBit_mul_pow_two,
    ← Nat.shiftRight_eq_div_pow, Nat.testBit_shiftRight]
  by_cases hk : k < 4
  · simp [hk, Nat.not_le.mpr hk]
  · have hk4 : 4 ≤ k := Nat.not_lt.mp hk
    have hadd : 4 + (k - 4) = k := by omega
    simp [hk, hk4, hadd]

/-- C20: when `4 * width + 15` is not negative, the stride `TkPathInitSurface`
computes is a multiple of 16, is at least `4 * width` and exceeds it by less
than 16: it is the least multiple of 16 that holds a row of 4-byte pixels.
The integers of the embedding are unbounded, so that no upper bound on
`4 * width + 15` is needed. -/
theorem TkPathInitSurface_stride (width height : Int) (h : 0 ≤ 4 * width + 15) :
    (TkPathInitSurface width height).stride % 16 = 0 ∧
    4 * width ≤ (TkPathInitSurface width height).stride ∧
    (TkPathInitSurface width height).stride - 4 * width < 16 := by
  obtain ⟨m, hm⟩ := Int.eq_ofNat_of_zero_le h
  have hs : (TkPathInitSurface width height).stride = ((16 * (m / 16) : Nat) : Int) := by
    simp only [TkPathInitSurface]
    have h15 : (4 * width + (16 - 1) : Int) = (m : Int) := by rw [← hm]; ring
    rw [h15, ← ldiff_fifteen]
    rfl
  rw [hs]
  push_cast
  omega

/-- Witness of C20: a surface 3 pixels wide gets the stride 16. -/
theorem TkPathInitSurface_stride_witness :
    (TkPathInitSurface 3 2).stride = 16 := by
  have h := TkPathInitSurface_stride 3 2 (by decide)
  omega

/-! ### Normalized rects -/

/-- C21: for every rect, `NormalizePathRect` gives a rect with `x1 ≤ x2` and
`y1 ≤ y2` whose `x1`, `x2` are the least and the greatest of the former `x1`,
`x2`, and likewise for `y`; applying it twice is applying it once; and a rect
with `x1 ≤ x2` and `y1 ≤ y2` is returned unchanged. -/
theorem NormalizePathRect_normal_form (r : PathRect) :
    (NormalizePathRect r).x1 ≤ (NormalizePathRect r).x2 ∧
    (NormalizePathRect r).y1 ≤ (NormalizePathRect r).y2 ∧
    (NormalizePathRect r).x1 = min r.x1 r.x2 ∧ (NormalizePathRect r).x2 = max r.x1 r.x2 ∧
    (NormalizePathRect r).y1 = min r.y1 r.y2 ∧ (NormalizePathRect r).y2 = max r.y1 r.y2 ∧
    NormalizePathRect (NormalizePathRect r) = NormalizePathRect r ∧
    (r.x1 ≤ r.x2 → r.y1 ≤ r.y2 → NormalizePathRect r = r) := by
  refine ⟨?_, ?_, rfl, rfl, rfl, rfl, ?_, ?_⟩
  · exact le_trans (min_le_left _ _) (le_max_left _ _)
  · exact le_trans (min_le_left _ _) (le_max_left _ _)
  · simp only [NormalizePathRect, PathRect.mk.injEq]
    refine ⟨?_, ?_, ?_, ?_⟩
    · exact min_eq_left (le_trans (min_le_left _ _) (le_max_left _ _))
    · exact min_eq_left (le_trans (min_le_left _ _) (le_max_left _ _))
    · exact max_eq_right (le_trans (min_le_left _ _) (le_max_left _ _))
    · exact max_eq_right (le_trans (min_le_left _ _) (le_max_left _ _))
  · intro hx hy
    cases r with
    | mk x1 y1 x2 y2 =>
      simp only [NormalizePathRect, PathRect.mk.injEq]
      exact ⟨min_eq_left hx, min_eq_left hy, max_eq_right hx, max_eq_right hy⟩

/-- Witness of C21: the rect `(1,2,3,4)` is in normal form and is returned
unchanged. -/
theorem NormalizePathRect_normal_form_witness :
    NormalizePathRect { x1 := 1, y1 := 2, x2 := 3, y2 := 4 } =
      { x1 := 1, y1 := 2, x2 := 3, y2 := 4 } :=
  (NormalizePathRect_normal_form { x1 := 1, y1 := 2, x2 := 3, y2 := 4 }).2.2.2.2.2.2.2
    (by norm_num) (by norm_num)

/-! ### More on `TkLineToPoint2` -/

/-- C23: `TkLineToPoint2` never divides by zero.  With `a2`, `b2`, `c2` the
squared distances it computes, its value is given by its three branches, and
whenever neither `c2 ≥ a2 + b2` nor `b2 ≥ a2 + c2` holds, so that the third
branch is taken, `a2 > 0` and the divisor `2.0 * sqrt(a2)` is not zero;
coincident end points take the first branch, and the result is the distance
from the point to `e1`. -/
theorem TkLineToPoint2_divisor_pos (e1 e2 p : ℝ × ℝ) :
    (TkLineToPoint2 e1 e2 p =
      if sqDist e2 p ≥ sqDist e1 e2 + sqDist e1 p then Real.sqrt (sqDist e1 p)
      else if sqDist e1 p ≥ sqDist e1 e2 + sqDist e2 p then Real.sqrt (sqDist e2 p)
      else Real.sqrt (max 0.0 (sqDist e1 p -
        ((sqDist e1 e2 + sqDist e1 p - sqDist e2 p) / (2.0 * Real.sqrt (sqDist e1 e2))) *
        ((sqDist e1 e2 + sqDist e1 p - sqDist e2 p) / (2.0 * Real.sqrt (sqDist e1 e2)))))) ∧
    (¬ sqDist e2 p ≥ sqDist e1 e2 + sqDist e1 p →
      ¬ sqDist e1 p ≥ sqDist e1 e2 + sqDist e2 p →
      0 < sqDist e1 e2 ∧ 2.0 * Real.sqrt (sqDist e1 e2) ≠ 0) ∧
    (sqDist e1 p ≥ sqDist e1 e1 + sqDist e1 p ∧
      TkLineToPoint2 e1 e1 p = Real.sqrt (sqDist e1 p) ∧
      TkLineToPoint2 e1 e1 p = euclidDist p e1) := by
  have hself : sqDist e1 e1 = 0 := by simp [sqDist]
  have hfirst : sqDist e1 p ≥ sqDist e1 e1 + sqDist e1 p := by rw [hself]; linarith
  have hval : TkLineToPoint2 e1 e1 p = Real.sqrt (sqDist e1 p) := by
    unfold TkLineToPoint2
    simp only []
    rw [if_pos]
    · rfl
    · exact hfirst
  refine ⟨rfl, ?_, hfirst, hval, ?_⟩
  · intro hc hb
    have ha : 0 ≤ sqDist e1 e2 := add_nonneg (mul_self_nonneg _) (mul_self_nonneg _)
    have hpos : 0 < sqDist e1 e2 := by
      rcases ha.lt_or_eq with h | h
      · exact h
      · exfalso
        rw [← h] at hc hb
        push_neg at hc hb
        linarith
    refine ⟨hpos, ?_⟩
    have hs := Real.sqrt_pos.mpr hpos
    have h2 : (2.0 : ℝ) = 2 := by norm_num
    rw [h2]
    positivity
  · rw [hval]
    unfold euclidDist sqDist
    congr 1
    ring

/-- Witness of C23: for the segment from `(0,0)` to `(2,0)` and the point
`(1,1)` the third branch is taken, and `a2 = 4` is positive. -/
theorem TkLineToPoint2_divisor_pos_witness :
    0 < sqDist (0, 0) (2, 0) ∧ 2.0 * Real.sqrt (sqDist (0, 0) (2, 0)) ≠ 0 :=
  (TkLineToPoint2_divisor_pos (0, 0) (2, 0) (1, 1)).2.1
    (by norm_num [sqDist]) (by norm_num [sqDist])

/-- Swapping the end points does not make the result larger. -/
theorem TkLineToPoint2_le_swap (e1 e2 p : ℝ × ℝ) :
    TkLineToPoint2 e1 e2 p ≤ TkLineToPoint2 e2 e1 p := by
  obtain ⟨s, hs0, hs1, hs⟩ := TkLineToPoint2_attained e2 e1 p
  rw [hs]
  have hpt : segmentPoint e2 e1 s = segmentPoint e1 e2 (1 - s) := by
    simp only [segmentPoint, Prod.mk.injEq]
    constructor <;> ring
  rw [hpt]
  exact TkLineToPoint2_le e1 e2 p (1 - s) (by linarith) (by linarith)

/-- C24: over the reals `TkLineToPoint2` is symmetric in its end points, and
its result is not negative and at most the lesser of the distances from the
point to the two end points. -/
theorem TkLineToPoint2_symmetric (e1 e2 p : ℝ × ℝ) :
    TkLineToPoint2 e1 e2 p = TkLineToPoint2 e2 e1 p ∧
    0 ≤ TkLineToPoint2 e1 e2 p ∧
    TkLineToPoint2 e1 e2 p ≤ min (euclidDist p e1) (euclidDist p e2) := by
  refine ⟨le_antisymm (TkLineToPoint2_le_swap e1 e2 p) (TkLineToPoint2_le_swap e2 e1 p), ?_, ?_⟩
  · obtain ⟨s, -, -, hs⟩ := TkLineToPoint2_attained e1 e2 p
    rw [hs]
    exact Real.sqrt_nonneg _
  · apply le_min
    · have h := TkLineToPoint2_le e1 e2 p 0 (le_refl _) zero_le_one
      have hpt : segmentPoint e1 e2 0 = e1 := by simp [segmentPoint]
      rw [hpt] at h
      exact h
    · have h := TkLineToPoint2_le e1 e2 p 1 zero_le_one (le_refl _)
      have hpt : segmentPoint e1 e2 1 = e2 := by simp [segmentPoint]
      rw [hpt] at h
      exact h

/-! ### The header bbox and the truncation to integers -/

/-- Truncation toward zero raises a number by less than 1. -/
theorem cInt_lt_add_one (d : ℚ) : ((cInt d : Int) : ℚ) < d + 1 := by
  unfold cInt
  split_ifs with h
  · exact lt_of_le_of_lt (Int.floor_le d) (lt_add_one d)
  · exact Int.ceil_lt_add_one d

/-- Truncation toward zero lowers a number by less than 1. -/
theorem sub_one_lt_cInt (d : ℚ) : d - 1 < ((cInt d : Int) : ℚ) := by
  unfold cInt
  split_ifs with h
  · exact Int.sub_one_lt_floor d
  · exact lt_of_lt_of_le (sub_one_lt d) (Int.le_ceil d)

/-- The margin `SetTotalBboxFromBare` adds is at least 1. -/
theorem SetTotalBboxFromBare_margin (env : PathEnv) (pathPtr : PathItem) :
    (SetTotalBboxFromBare env pathPtr).totalBbox.x1 ≤ pathPtr.bareBbox.x1 - 1 ∧
    (SetTotalBboxFromBare env pathPtr).totalBbox.y1 ≤ pathPtr.bareBbox.y1 - 1 ∧
    pathPtr.bareBbox.x2 + 1 ≤ (SetTotalBboxFromBare env pathPtr).totalBbox.x2 ∧
    pathPtr.bareBbox.y2 + 1 ≤ (SetTotalBboxFromBare env pathPtr).totalBbox.y2 := by
  unfold SetTotalBboxFromBare
  simp only []
  have h1 : (1.0 : ℚ) = 1 := by norm_num
  rw [h1]
  split_ifs <;> refine ⟨?_, ?_, ?_, ?_⟩ <;> dsimp only <;> linarith

/-- C25: for an item without a matrix, after `SetTotalBboxFromBare` followed
by `SetPathHeaderBbox` the integer header bbox contains the bare bbox on all
four sides, for every stroke setting and both antialias settings, the cast to
`int` being truncation toward zero.  The integers of the embedding are
unbounded, so that nothing is assumed of the size of the coordinates. -/
theorem header_contains_bare (env : PathEnv) (pathPtr : PathItem)
    (hm : pathPtr.style.matrixPtr = none) :
    ((SetPathHeaderBbox env (SetTotalBboxFromBare env pathPtr)).header.x1 : ℚ)
      ≤ pathPtr.bareBbox.x1 ∧
    ((SetPathHeaderBbox env (SetTotalBboxFromBare env pathPtr)).header.y1 : ℚ)
      ≤ pathPtr.bareBbox.y1 ∧
    pathPtr.bareBbox.x2
      ≤ ((SetPathHeaderBbox env (SetTotalBboxFromBare env pathPtr)).header.x2 : ℚ) ∧
    pathPtr.bareBbox.y2
      ≤ ((SetPathHeaderBbox env (SetTotalBboxFromBare env pathPtr)).header.y2 : ℚ) := by
  obtain ⟨h1, h2, h3, h4⟩ := SetTotalBboxFromBare_margin env pathPtr
  have hs : (SetTotalBboxFromBare env pathPtr).style.matrixPtr = none := hm
  have hx1 : (SetPathHeaderBbox env (SetTotalBboxFromBare env pathPtr)).header.x1 =
      cInt (SetTotalBboxFromBare env pathPtr).totalBbox.x1 := by
    unfold SetPathHeaderBbox; simp only [hs]
  have hy1 : (SetPathHeaderBbox env (SetTotalBboxFromBare env pathPtr)).header.y1 =
      cInt (SetTotalBboxFromBare env pathPtr).totalBbox.y1 := by
    unfold SetPathHeaderBbox; simp only [hs]
  have hx2 : (SetPathHeaderBbox env (SetTotalBboxFromBare env pathPtr)).header.x2 =
      cInt (SetTotalBboxFromBare env pathPtr).totalBbox.x2 := by
    unfold SetPathHeaderBbox; simp only [hs]
  have hy2 : (SetPathHeaderBbox env (SetTotalBboxFromBare env pathPtr)).header.y2 =
      cInt (SetTotalBboxFromBare env pathPtr).totalBbox.y2 := by
    unfold SetPathHeaderBbox; simp only [hs]
  rw [hx1, hy1, hx2, hy2]
  have a1 := cInt_lt_add_one (SetTotalBboxFromBare env pathPtr).totalBbox.x1
  have a2 := cInt_lt_add_one (SetTotalBboxFromBare env pathPtr).totalBbox.y1
  have a3 := sub_one_lt_cInt (SetTotalBboxFromBare env pathPtr).totalBbox.x2
  have a4 := sub_one_lt_cInt (SetTotalBboxFromBare env pathPtr).totalBbox.y2
  refine ⟨?_, ?_, ?_, ?_⟩ <;> linarith

/-- Witness of C25: the item of `M 0 0 L 10 10`, which has no matrix, with
the bare bbox `(-1/2, 1/3, 21/2, 31/3)`. -/
theorem header_contains_bare_witness :
    ((SetPathHeaderBbox lineEnv (SetTotalBboxFromBare lineEnv
        { lineItem with bareBbox := { x1 := -1 / 2, y1 := 1 / 3, x2 := 21 / 2, y2 := 31 / 3 } })
      ).header.x1 : ℚ) ≤ -1 / 2 ∧
    (21 / 2 : ℚ) ≤ ((SetPathHeaderBbox lineEnv (SetTotalBboxFromBare lineEnv
        { lineItem with bareBbox := { x1 := -1 / 2, y1 := 1 / 3, x2 := 21 / 2, y2 := 31 / 3 } })
      ).header.x2 : ℚ) :=
  ⟨(header_contains_bare lineEnv
      { lineItem with bareBbox := { x1 := -1 / 2, y1 := 1 / 3, x2 := 21 / 2, y2 := 31 / 3 } }
      rfl).1,
    (header_contains_bare lineEnv
      { lineItem with bareBbox := { x1 := -1 / 2, y1 := 1 / 3, x2 := 21 / 2, y2 := 31 / 3 } }
      rfl).2.2.1⟩

/-! ### The header bbox after a translation -/

/-- Without a style matrix `TranslatePath` leaves the header bbox that
`SetPathHeaderBbox` computes. -/
theorem TranslatePath_header_without_matrix (env : PathEnv) (pathPtr : PathItem)
    (deltaX deltaY : ℚ) (hm : pathPtr.style.matrixPtr = none) :
    (TranslatePath env pathPtr deltaX deltaY).header =
      (SetPathHeaderBbox env (TranslatePath env pathPtr deltaX deltaY)).header := by
  have hs : (TranslatePath env pathPtr deltaX deltaY).style.matrixPtr = none := hm
  unfold SetPathHeaderBbox
  simp only [hs]
  rfl

/-- C26, on the code: the item with the quarter turn as style matrix and the
total bbox `(-1,-1,11,11)`, moved by `(5, 0)`.  `TranslatePath` leaves the
header bbox `(4,-1,16,11)`, the truncated total bbox, whereas
`SetPathHeaderBbox` computes `(-11,4,1,16)` from the translated total bbox,
the union of its four turned corners. -/
theorem TranslatePath_header_at_turnedItem :
    (TranslatePath lineEnv turnedItem 5 0).header =
      { x1 := 4, y1 := -1, x2 := 16, y2 := 11, state := Tk_State.TK_STATE_NULL } ∧
    (SetPathHeaderBbox lineEnv (TranslatePath lineEnv turnedItem 5 0)).header =
      { x1 := -11, y1 := 4, x2 := 1, y2 := 16, state := Tk_State.TK_STATE_NULL } ∧
    (TranslatePath lineEnv turnedItem 5 0).header ≠
      (SetPathHeaderBbox lineEnv (TranslatePath lineEnv turnedItem 5 0)).header := by
  have h1 : (TranslatePath lineEnv turnedItem 5 0).header =
      { x1 := 4, y1 := -1, x2 := 16, y2 := 11, state := Tk_State.TK_STATE_NULL } := by
    norm_num [TranslatePath, TranslatePathRect, turnedItem, lineItem, cInt, Int.floor_eq_iff,
      Int.ceil_eq_iff]
  have h2 : (SetPathHeaderBbox lineEnv (TranslatePath lineEnv turnedItem 5 0)).header =
      { x1 := -11, y1 := 4, x2 := 1, y2 := 16, state := Tk_State.TK_STATE_NULL } := by
    norm_num [SetPathHeaderBbox, TranslatePath, TranslatePathRect, turnedItem, lineItem,
      lineEnv, applyAffine, quarterTurn, IncludePointInRect, NewEmptyPathRect, cInt,
      Int.floor_eq_iff, Int.ceil_eq_iff]
  refine ⟨h1, h2, ?_⟩
  rw [h1, h2]
  decide

/-! ### The joins `GetMiterBbox` evaluates -/

/-- C22, on the code: the path `M 0 0 C 1 2 3 4 5 6 L 7 8`.  After the
CubicBezier atom the point tracked last should be the anchor `(5, 6)` and the
one before it the second control point `(3, 4)`; the loop holds `(5, 5)` and
`(0, 0)`.  The join at the end of the curve should be evaluated on `(7, 8)`,
`(5, 6)`, `(3, 4)`; it is evaluated on `(7, 8)`, `(5, 5)`, `(0, 0)`. -/
theorem GetMiterBbox_cubic_join
    (TkGetMiterPoints : ℚ × ℚ → ℚ × ℚ → ℚ × ℚ → ℚ → (ℚ × ℚ) × (ℚ × ℚ))
    (uninit : MiterUninit) (width : ℚ) :
    ([PathAtom.M 0 0, PathAtom.C 1 2 3 4 5 6].foldl (miterLoopBody TkGetMiterPoints width)
      (miterLoopStart uninit)).p1 = (5, 5) ∧
    ([PathAtom.M 0 0, PathAtom.C 1 2 3 4 5 6].foldl (miterLoopBody TkGetMiterPoints width)
      (miterLoopStart uninit)).p2 = (0, 0) ∧
    ([PathAtom.M 0 0, PathAtom.C 1 2 3 4 5 6].foldl (miterLoopBody TkGetMiterPoints width)
      (miterLoopStart uninit)).p1 ≠ (5, 6) ∧
    ([PathAtom.M 0 0, PathAtom.C 1 2 3 4 5 6].foldl (miterLoopBody TkGetMiterPoints width)
      (miterLoopStart uninit)).p2 ≠ (3, 4) ∧
    GetMiterBbox TkGetMiterPoints uninit
        [PathAtom.M 0 0, PathAtom.C 1 2 3 4 5 6, PathAtom.L 7 8] width =
      IncludeMiterPointsInRect TkGetMiterPoints (7, 8) (5, 5) (0, 0)
        { x1 := 1.0e36, y1 := 1.0e36, x2 := -1.0e36, y2 := -1.0e36 } width := by
  have h1 : ([PathAtom.M 0 0, PathAtom.C 1 2 3 4 5 6].foldl
      (miterLoopBody TkGetMiterPoints width) (miterLoopStart uninit)).p1 = (5, 5) := rfl
  have h2 : ([PathAtom.M 0 0, PathAtom.C 1 2 3 4 5 6].foldl
      (miterLoopBody TkGetMiterPoints width) (miterLoopStart uninit)).p2 = (0, 0) := rfl
  refine ⟨h1, h2, ?_, ?_, rfl⟩
  · rw [h1]
    intro h
    have hy : (5 : ℚ) = 6 := congrArg Prod.snd h
    norm_num at hy
  · rw [h2]
    intro h
    have hx : (0 : ℚ) = 3 := congrArg Prod.fst h
    norm_num at hx

/-- The sibling case of the quadratic curve: after `M 0 0 Q 1 2 5 6` the
point tracked last is the anchor `(5, 6)` and the one before it the control
point `(1, 2)`. -/
theorem miterLoop_quad_tracks
    (TkGetMiterPoints : ℚ × ℚ → ℚ × ℚ → ℚ × ℚ → ℚ → (ℚ × ℚ) × (ℚ × ℚ))
    (uninit : MiterUninit) (width : ℚ) :
    ([PathAtom.M 0 0, PathAtom.Q 1 2 5 6].foldl (miterLoopBody TkGetMiterPoints width)
      (miterLoopStart uninit)).p1 = (5, 6) ∧
    ([PathAtom.M 0 0, PathAtom.Q 1 2 5 6].foldl (miterLoopBody TkGetMiterPoints width)
      (miterLoopStart uninit)).p2 = (1, 2) :=
  ⟨rfl, rfl⟩

/-! ### The pixels `TkPathSurfaceErase` clears -/

/-- Every column of the loop values is visited by the inner loop, with `dst`
advanced by 4 for each column passed. -/
theorem eraseRowLoop_mem (i j : Int) (count : Nat) :
    ∀ lo dst : Int, lo ≤ j → j < lo + count →
      (j, i, dst + 4 * (j - lo)) ∈ eraseRowLoop i dst (countFrom lo count) := by
  induction count with
  | zero => intro lo dst h1 h2; omega
  | succ n ih =>
    intro lo dst h1 h2
    simp only [countFrom, eraseRowLoop, List.mem_cons]
    by_cases hj : j = lo
    · left
      subst hj
      simp
    · right
      have h := ih (lo + 1) (dst + 4) (by omega) (by push_cast at h2; omega)
      have he : dst + 4 + 4 * (j - (lo + 1)) = dst + 4 * (j - lo) := by ring
      rw [he] at h
      exact h

/-- The pixels of the two loops: the columns from the clamped `x` up to
`xend` and the rows from the clamped `y` up to `yend`, each with the offset
`i * stride + 4 * j` of its first byte. -/
theorem mem_TkPathSurfaceErasePixels (record : PathSurfaceCairoRecord)
    (dx dy dwidth dheight : ℚ) (j i dst : Int) :
    (j, i, dst) ∈ TkPathSurfaceErasePixels record dx dy dwidth dheight ↔
      max 0 (min record.width (cInt (dx + 0.5))) ≤ j ∧
      j < min (max 0 (min record.width (cInt (dx + 0.5))) + max 0 (cInt (dwidth + 0.5)))
            record.width ∧
      max 0 (min record.height (cInt (dy + 0.5))) ≤ i ∧
      i < min (max 0 (min record.height (cInt (dy + 0.5))) + max 0 (cInt (dheight + 0.5)))
            record.height ∧
      dst = i * record.stride + 4 * j := by
  unfold TkPathSurfaceErasePixels
  simp only [List.mem_flatMap, mem_forLoopValues]
  constructor
  · rintro ⟨i', hi', hrow⟩
    unfold forLoopValues at hrow
    obtain ⟨h1, h2, h3, h4⟩ := mem_eraseRowLoop i' (j, i, dst) _ _ _ hrow
    simp only [] at h1 h2 h3 h4
    subst h1
    refine ⟨h2, by omega, hi'.1, hi'.2, ?_⟩
    rw [h4]
    ring
  · rintro ⟨h1, h2, h3, h4, h5⟩
    refine ⟨i, ⟨h3, h4⟩, ?_⟩
    unfold forLoopValues
    have h := eraseRowLoop_mem i j
      (min (max 0 (min record.width (cInt (dx + 0.5))) + max 0 (cInt (dwidth + 0.5)))
        record.width - max 0 (min record.width (cInt (dx + 0.5)))).toNat
      (max 0 (min record.width (cInt (dx + 0.5))))
      (i * record.stride + 4 * max 0 (min record.width (cInt (dx + 0.5)))) h1 (by omega)
    have he : i * record.stride + 4 * max 0 (min record.width (cInt (dx + 0.5))) +
        4 * (j - max 0 (min record.width (cInt (dx + 0.5)))) = dst := by
      rw [h5]
      ring
    rw [he] at h
    exact h

/-- When the rounded `x0` and `y0` are not negative, the pixels
`TkPathSurfaceErase` clears are exactly those of the requested rectangle
clipped to the surface. -/
theorem TkPathSurfaceErase_clips_of_nonneg (record : PathSurfaceCairoRecord)
    (dx dy dwidth dheight : ℚ) (hx : 0 ≤ cInt (dx + 0.5)) (hy : 0 ≤ cInt (dy + 0.5))
    (j i : Int) :
    (∃ dst : Int, (j, i, dst) ∈ TkPathSurfaceErasePixels record dx dy dwidth dheight) ↔
      inClippedRect record dx dy dwidth dheight j i := by
  unfold inClippedRect
  constructor
  · rintro ⟨dst, h⟩
    rw [mem_TkPathSurfaceErasePixels] at h
    obtain ⟨h1, h2, h3, h4, -⟩ := h
    refine ⟨?_, ?_, ?_, ?_⟩ <;> omega
  · rintro ⟨h1, h2, h3, h4⟩
    refine ⟨i * record.stride + 4 * j, ?_⟩
    rw [mem_TkPathSurfaceErasePixels]
    refine ⟨?_, ?_, ?_, ?_, rfl⟩ <;> omega

/-- C27, on the code: erasing the rectangle at `(-2, 0)` of size 2 by 1 on the
surface of 3 by 2 pixels, whose bytes are all 255.  The rounded arguments are
`x0 = -1`, `y0 = 0`, `w = 2`, `h = 1`, so that the requested rectangle
clipped to the surface is the single pixel of column 0 and row 0;
`TkPathSurfaceErase` clears the pixels of the columns 0 and 1 of row 0, and
the byte at offset 4, of the pixel of column 1, goes from 255 to 0. -/
theorem TkPathSurfaceErase_negative_origin :
    cInt (-2 + 0.5) = -1 ∧
    TkPathSurfaceErasePixels smallSurface (-2) 0 2 1 = [(0, 0, 0), (1, 0, 4)] ∧
    ¬ inClippedRect smallSurface (-2) 0 2 1 1 0 ∧
    smallSurface.data 4 = 255 ∧
    (TkPathSurfaceErase smallSurface (-2) 0 2 1).data 4 = 0 := by
  have hm : cInt (-2 + 0.5) = -1 := by norm_num [cInt, Int.ceil_eq_iff]
  have h0 : cInt (0 + 0.5) = 0 := by norm_num [cInt, Int.floor_eq_iff]
  have h2 : cInt (2 + 0.5) = 2 := by norm_num [cInt, Int.floor_eq_iff]
  have h1 : cInt (1 + 0.5) = 1 := by norm_num [cInt, Int.floor_eq_iff]
  have hp : TkPathSurfaceErasePixels smallSurface (-2) 0 2 1 = [(0, 0, 0), (1, 0, 4)] := by
    simp only [TkPathSurfaceErasePixels, smallSurface, hm, h0, h2, h1]
    decide
  refine ⟨hm, hp, ?_, rfl, ?_⟩
  · simp only [inClippedRect, smallSurface, hm, h0, h2, h1]
    decide
  · simp only [TkPathSurfaceErase, hp]
    decide

end TkPath
